import Mathlib

/- Verification of the s3streamer library (Go): a shallow embedding of the
   multipart-upload writer (s3writer.go), the range reader (ChunkStreamer),
   the compression detector (decompression.go) and the compressing adapter
   (CompressedS3Writer), together with proofs of the specification claims.

   Bytes are modelled as natural numbers; byte slices as lists. The S3
   backing store is modelled as a deterministic client record whose fields
   give the outcome of each remote call; every remote call issued by the
   code is additionally recorded in a ghost trace so that claims about
   "calls made to the backing store" are statable. -/

namespace S3Streamer

abbrev Byte := Nat

/-! ## Compression detector (decompression.go) -/

inductive Compression where
  | Uncompressed
  | Bzip2
  | Gzip
deriving Repr, DecidableEq

def gzipMagic : List Byte := [0x1F, 0x8B]

def bzip2Magic : List Byte := [0x42, 0x5A, 0x68]

/-- Go: `len(source) >= len(m) && bytes.Equal(m, source[:len(m)])`. -/
def matchesMagic (m source : List Byte) : Bool :=
  decide (m.length ≤ source.length) && decide (source.take m.length = m)

/-- Embedding of `DetectCompression`. The Go code iterates over a two-entry
map; the two signatures differ in their first byte (0x42 vs 0x1F) so they are
mutually exclusive and the (unspecified) map iteration order is immaterial. -/
def DetectCompression (source : List Byte) : Compression :=
  if matchesMagic bzip2Magic source then Compression.Bzip2
  else if matchesMagic gzipMagic source then Compression.Gzip
  else Compression.Uncompressed

/-! ## Multipart upload writer (s3writer.go) -/

/-- Errors produced by the writer, one constructor per distinct `fmt.Errorf`
site in s3writer.go (plus the compressor-close error of the adapter). -/
inductive WErr where
  | ctxCanceled
  | closedWriter
  | partSizeTooSmall
  | createFailed (msg : String)
  | tooManyParts
  | uploadFailed (pn : Nat) (msg : String)
  | emptyETag (pn : Nat)
  | noUploadInProgress
  | noParts
  | partValidation (idx : Nat)
  | completeFailed (msg : String)
  | abortFailed (msg : String)
  | compressorCloseFailed
deriving Repr, DecidableEq

/-- Ghost record of one backing-store call issued by the writer. -/
inductive Ev where
  | up (pn : Nat) (body : List Byte) (ok : Bool)
  | complete (parts : List (Nat × String)) (ok : Bool)
  | abort (ok : Bool)
deriving Repr, DecidableEq

/-- Deterministic model of the S3 client used by the writer: the outcome of
each kind of remote call. `ctxDone` models whether the context passed to
`NewS3Writer` has been cancelled. -/
structure S3ClientW where
  ctxDone : Bool
  createRes : Except String String
  uploadPartRes : Nat → List Byte → Except String String
  completeRes : List (Nat × String) → Except String Unit
  abortRes : Except String Unit

/-- State of `S3Writer` (bucket/key omitted: they are only threaded into the
remote calls and never branched on; `trace` is the ghost call record). -/
structure S3Writer where
  partSize : Nat
  uploadID : Option String
  buffer : List Byte
  partNumber : Nat
  parts : List (Nat × String)
  closed : Bool
  err : Option WErr
  trace : List Ev
deriving Repr, DecidableEq

/-- The struct literal in `NewS3Writer` after a successful
`CreateMultipartUpload` returning `uid`. -/
def initWriter (partSize : Nat) (uid : String) : S3Writer :=
  { partSize := partSize, uploadID := some uid, buffer := [], partNumber := 1,
    parts := [], closed := false, err := none, trace := [] }

/-- Embedding of `NewS3Writer` (the nil/empty checks on ctx, client, bucket
and key are omitted along with those fields). -/
def NewS3Writer (c : S3ClientW) (partSize : Nat) : Except WErr S3Writer :=
  if partSize < 5242880 then Except.error WErr.partSizeTooSmall
  else
    match c.createRes with
    | Except.error m => Except.error (WErr.createFailed m)
    | Except.ok uid => Except.ok (initWriter partSize uid)

/-- Embedding of `uploadPart`: no-op on an empty buffer; part-count ceiling;
on client success with a non-empty ETag, record the completed part under the
same number just used for the upload, clear the buffer and increment. -/
def S3Writer.uploadPart (c : S3ClientW) (w : S3Writer) : S3Writer × Option WErr :=
  if w.buffer.length = 0 then (w, none)
  else if 10000 < w.partNumber then (w, some WErr.tooManyParts)
  else
    match c.uploadPartRes w.partNumber w.buffer with
    | Except.error m =>
      ({ w with trace := w.trace ++ [Ev.up w.partNumber w.buffer false] },
       some (WErr.uploadFailed w.partNumber m))
    | Except.ok etag =>
      if etag = "" then
        ({ w with trace := w.trace ++ [Ev.up w.partNumber w.buffer true] },
         some (WErr.emptyETag w.partNumber))
      else
        ({ w with
            buffer := []
            partNumber := w.partNumber + 1
            parts := w.parts ++ [(w.partNumber, etag)]
            trace := w.trace ++ [Ev.up w.partNumber w.buffer true] }, none)

/-- Insertion step for `sortByPn`. -/
def insertByPn {α : Type} (pr : Nat × α) : List (Nat × α) → List (Nat × α)
  | [] => [pr]
  | q :: rest => if pr.1 < q.1 then pr :: q :: rest else q :: insertByPn pr rest

/-- The in-place `sort.Slice` by part number in `completeMultipartUpload`,
modelled as an insertion sort (part numbers are distinct, so any sorting
algorithm yields the same list). -/
def sortByPn {α : Type} : List (Nat × α) → List (Nat × α)
  | [] => []
  | pr :: rest => insertByPn pr (sortByPn rest)

/-- Embedding of `completeMultipartUpload`: requires an upload id and at
least one part, sorts the parts by part number, validates ETags, then issues
the completion call with the sorted list. -/
def S3Writer.completeMultipartUpload (c : S3ClientW) (w : S3Writer) :
    S3Writer × Option WErr :=
  match w.uploadID with
  | none => (w, some WErr.noUploadInProgress)
  | some _ =>
    if w.parts.length = 0 then (w, some WErr.noParts)
    else
      let sorted := sortByPn w.parts
      let w1 := { w with parts := sorted }
      match sorted.findIdx? (fun pr => pr.2 == "") with
      | some i => (w1, some (WErr.partValidation i))
      | none =>
        match c.completeRes sorted with
        | Except.error m =>
          ({ w1 with trace := w1.trace ++ [Ev.complete sorted false] },
           some (WErr.completeFailed m))
        | Except.ok _ =>
          ({ w1 with trace := w1.trace ++ [Ev.complete sorted true] }, none)

/-- Embedding of `abortMultipartUpload`: nothing to do when no upload id. -/
def S3Writer.abortMultipartUpload (c : S3ClientW) (w : S3Writer) :
    S3Writer × Option WErr :=
  match w.uploadID with
  | none => (w, none)
  | some _ =>
    match c.abortRes with
    | Except.error m =>
      ({ w with trace := w.trace ++ [Ev.abort false] }, some (WErr.abortFailed m))
    | Except.ok _ =>
      ({ w with trace := w.trace ++ [Ev.abort true] }, none)

/-- The `for len(p) > 0` loop body of `Write`, with explicit fuel. Each
iteration consumes at least one byte of `p` whenever `partSize ≥ 1`, so fuel
`p.length` is exact; the Go loop never terminates when `partSize ≤ 0`, a
state unreachable through `NewS3Writer` (which demands ≥ 5 MiB). Go's
locals are inlined: `remaining ≤ 0` is `partSize ≤ len(buffer)` (and after
that flush the buffer is empty, so `remaining = partSize` matches
`partSize - len(buffer)` again), and `toWrite = min(len(p), remaining)`
appears as `min p.length (w1.partSize - w1.buffer.length)`. -/
def writeLoop (c : S3ClientW) : Nat → S3Writer → List Byte → Nat → S3Writer × Nat × Option WErr
  | 0, w, _, total => (w, total, none)
  | fuel + 1, w, p, total =>
    if p = [] then (w, total, none)
    else
      match (if w.partSize ≤ w.buffer.length then S3Writer.uploadPart c w else (w, none)) with
      | (w1, some e) => ({ w1 with err := some e }, total, some e)
      | (w1, none) =>
        if w1.partSize ≤ (w1.buffer ++ p.take (min p.length (w1.partSize - w1.buffer.length))).length then
          match S3Writer.uploadPart c
              { w1 with buffer := w1.buffer ++ p.take (min p.length (w1.partSize - w1.buffer.length)) } with
          | (w3, some e) =>
            ({ w3 with err := some e },
             total + min p.length (w1.partSize - w1.buffer.length), some e)
          | (w3, none) =>
            writeLoop c fuel w3 (p.drop (min p.length (w1.partSize - w1.buffer.length)))
              (total + min p.length (w1.partSize - w1.buffer.length))
        else
          writeLoop c fuel
            { w1 with buffer := w1.buffer ++ p.take (min p.length (w1.partSize - w1.buffer.length)) }
            (p.drop (min p.length (w1.partSize - w1.buffer.length)))
            (total + min p.length (w1.partSize - w1.buffer.length))

/-- Embedding of `Write`: context check, closed check, sticky-error check,
then the buffering loop. Returns the new state, the byte count accepted and
the error, mirroring Go's `(int, error)`. -/
def S3Writer.Write (c : S3ClientW) (w : S3Writer) (p : List Byte) :
    S3Writer × Nat × Option WErr :=
  if c.ctxDone then (w, 0, some WErr.ctxCanceled)
  else if w.closed then (w, 0, some WErr.closedWriter)
  else
    match w.err with
    | some e => (w, 0, some e)
    | none => writeLoop c p.length w p 0

/-- Embedding of `Close`: context check (with best-effort abort), idempotence
on a closed writer, final flush of a non-empty buffer, completion, and abort
on any failure (abort errors ignored). -/
def S3Writer.Close (c : S3ClientW) (w : S3Writer) : S3Writer × Option WErr :=
  if c.ctxDone then
    if w.closed then (w, some WErr.ctxCanceled)
    else ((S3Writer.abortMultipartUpload c { w with closed := true }).1, some WErr.ctxCanceled)
  else if w.closed then (w, w.err)
  else
    match (if 0 < w.buffer.length then S3Writer.uploadPart c { w with closed := true }
           else ({ w with closed := true }, none)) with
    | (w2, some e) =>
      ((S3Writer.abortMultipartUpload c { w2 with err := some e }).1, some e)
    | (w2, none) =>
      match S3Writer.completeMultipartUpload c w2 with
      | (w3, some e) =>
        ((S3Writer.abortMultipartUpload c { w3 with err := some e }).1, some e)
      | (w3, none) => (w3, none)

/-- Embedding of `Abort`: mark closed, then best-effort abort of the session
(no context check in the source). -/
def S3Writer.Abort (c : S3ClientW) (w : S3Writer) : S3Writer × Option WErr :=
  let w1 := if w.closed then w else { w with closed := true }
  S3Writer.abortMultipartUpload c w1

/-! ### Driver for arbitrary call sequences -/

inductive WOp where
  | write (p : List Byte)
  | close
  | abort

def applyOp (c : S3ClientW) (w : S3Writer) : WOp → S3Writer
  | WOp.write p => (S3Writer.Write c w p).1
  | WOp.close => (S3Writer.Close c w).1
  | WOp.abort => (S3Writer.Abort c w).1

def runOps (c : S3ClientW) (w : S3Writer) : List WOp → S3Writer
  | [] => w
  | op :: ops => runOps c (applyOp c w op) ops

/-- Feed the chunks to `Write` one call at a time; the Boolean reports
whether every call returned a nil error. -/
def writeAll (c : S3ClientW) : S3Writer → List (List Byte) → S3Writer × Bool
  | w, [] => (w, true)
  | w, p :: ps =>
    match S3Writer.Write c w p with
    | (w1, _, none) => writeAll c w1 ps
    | (w1, _, some _) => (w1, false)

/-- The successful uploadPart calls of a trace: part number and body. -/
def upOks (t : List Ev) : List (Nat × List Byte) :=
  t.filterMap fun e =>
    match e with
    | Ev.up pn body true => some (pn, body)
    | _ => none

/-- Bytes handed to the backing store so far plus bytes still buffered. -/
def joined (w : S3Writer) : List Byte :=
  ((upOks w.trace).map Prod.snd).flatten ++ w.buffer

/-! ## Range reader (ChunkStreamer) -/

/-- Deterministic model of the S3 client used by the reader: the remote
object's bytes, and which ranges fail to fetch. A successful `GetObject`
with header `bytes=start-end` returns exactly that slice of the object. -/
structure GetClient where
  obj : List Byte
  failAt : Nat → Nat → Bool

/-- State of `ChunkStreamer` (`fetches` is the ghost record of the range of
every GetObject call issued). -/
structure ChunkStreamer where
  offset : Nat
  size : Nat
  chunkSize : Nat
  currentOffset : Nat
  eof : Bool
  buffer : List Byte
  fetches : List (Nat × Nat)
deriving Repr, DecidableEq

def NewChunkStreamer (offset size chunkSize : Nat) : ChunkStreamer :=
  { offset := offset, size := size, chunkSize := chunkSize,
    currentOffset := offset, eof := false, buffer := [], fetches := [] }

inductive RErr where
  | eofMark
  | chunkFailed (start stop : Nat)
deriving Repr, DecidableEq

/-- Embedding of `ChunkStreamer.Read`. Returns the new state, the bytes
copied into the destination (its length is Go's `n`; `blen` is the
destination capacity `len(p)`) and the error. -/
def ChunkStreamer.Read (cl : GetClient) (s : ChunkStreamer) (blen : Nat) :
    ChunkStreamer × List Byte × Option RErr :=
  if s.eof ∧ s.buffer.length = 0 then (s, [], some RErr.eofMark)
  else if 0 < s.buffer.length then
    let n := min blen s.buffer.length
    ({ s with buffer := s.buffer.drop n }, s.buffer.take n, none)
  else if s.offset + s.size ≤ s.currentOffset then
    ({ s with eof := true }, [], some RErr.eofMark)
  else
    let startOff := s.currentOffset
    let endOff := min (s.currentOffset + s.chunkSize - 1) (s.offset + s.size - 1)
    let s0 := { s with fetches := s.fetches ++ [(startOff, endOff)] }
    if cl.failAt startOff endOff then
      (s0, [], some (RErr.chunkFailed startOff endOff))
    else
      let chunkData := (cl.obj.drop startOff).take (endOff + 1 - startOff)
      let s1 := { s0 with
        currentOffset := endOff + 1
        eof := decide (s.offset + s.size ≤ endOff + 1) }
      let n := min blen chunkData.length
      ({ s1 with buffer := chunkData.drop n }, chunkData.take n, none)

/-- Repeatedly call `Read` with a destination of capacity `blen`, collecting
the returned prefixes, until an error (end-of-stream included) or fuel runs
out. -/
def drain (cl : GetClient) : Nat → ChunkStreamer → Nat → List Byte → List Byte × Option RErr
  | 0, _, _, acc => (acc, none)
  | fuel + 1, s, blen, acc =>
    match ChunkStreamer.Read cl s blen with
    | (s1, out, none) => drain cl fuel s1 blen (acc ++ out)
    | (_, _, some e) => (acc, some e)

/-! ## Compressing adapter (CompressedS3Writer) -/

/-- Abstract model of the compression transform wrapped around the writer:
`pending` is what the codec would still emit on close, `closeOK` whether its
own close/flush succeeds. The codecs themselves (gzip/bzip2) are external
collaborators; only their composition is modelled. -/
structure Compressor where
  pending : List Byte
  closeOK : Bool
deriving Repr, DecidableEq

structure CompressedS3Writer where
  s3Writer : S3Writer
  compressor : Option Compressor

/-- Closing the transform flushes its pending compressed bytes into the
underlying writer via `Write` (that is what gzip.Writer.Close does with its
sink); a failure of the transform itself, or of the underlying write it
performs, is the flush error. -/
def Compressor.close (c : S3ClientW) (comp : Compressor) (w : S3Writer) :
    S3Writer × Option WErr :=
  if comp.closeOK then
    match S3Writer.Write c w comp.pending with
    | (w1, _, none) => (w1, none)
    | (w1, _, some e) => (w1, some e)
  else (w, some WErr.compressorCloseFailed)

/-- Embedding of `CompressedS3Writer.Close`: close the compressor first; on
its failure abort the underlying writer (discarding the abort result) and
return the flush error; otherwise close the underlying writer. -/
def CompressedS3Writer.Close (c : S3ClientW) (cw : CompressedS3Writer) :
    S3Writer × Option WErr :=
  match cw.compressor with
  | some comp =>
    match Compressor.close c comp cw.s3Writer with
    | (w1, some e) => ((S3Writer.Abort c w1).1, some e)
    | (w1, none) => S3Writer.Close c w1
  | none => S3Writer.Close c cw.s3Writer

/-! ## Concrete clients used by witnesses and counterexamples -/

def okClientW : S3ClientW :=
  { ctxDone := false, createRes := Except.ok "uid",
    uploadPartRes := fun _ _ => Except.ok "etag",
    completeRes := fun _ => Except.ok (), abortRes := Except.ok () }

def failUploadClient : S3ClientW :=
  { okClientW with uploadPartRes := fun _ _ => Except.error "boom" }

def failCompleteClient : S3ClientW :=
  { okClientW with completeRes := fun _ => Except.error "boom" }

def okGetClient (obj : List Byte) : GetClient :=
  { obj := obj, failAt := fun _ _ => false }

def failGetClient (obj : List Byte) : GetClient :=
  { obj := obj, failAt := fun _ _ => true }

/-- The abort event the client `c` produces. -/
def abortEv (c : S3ClientW) : Ev :=
  match c.abortRes with
  | Except.ok _ => Ev.abort true
  | Except.error _ => Ev.abort false

/-- The error `abortMultipartUpload` reports under client `c`. -/
def abortErrOf (c : S3ClientW) : Option WErr :=
  match c.abortRes with
  | Except.ok _ => none
  | Except.error m => some (WErr.abortFailed m)

/-! ## Predicates used by the claims -/

/-- A completion call has already been issued. -/
def HasComplete (w : S3Writer) : Prop :=
  ∃ ps b, Ev.complete ps b ∈ w.trace

/-- The client never returns a successful upload with an empty ETag (the
abstract backing-store interface returns an entity tag on success). -/
def GoodEtags (c : S3ClientW) : Prop :=
  ∀ pn body etag, c.uploadPartRes pn body = Except.ok etag → etag ≠ ""

/-- The part-numbering invariant of the writer: the successful upload calls
carry part numbers 1, 2, ..., k in order; the completed-parts list records
exactly those numbers in the same order; the counter sits one past the last
recorded part; and any completion call submitted exactly the recorded parts
(and happened on a closed writer). -/
def WInv (w : S3Writer) : Prop :=
  (upOks w.trace).map Prod.fst = List.range' 1 w.parts.length
  ∧ w.parts.map Prod.fst = List.range' 1 w.parts.length
  ∧ w.partNumber = w.parts.length + 1
  ∧ (∀ ps b, Ev.complete ps b ∈ w.trace → ps = w.parts ∧ w.closed = true)

/-- Checks that an uploadPart call carried a non-empty body. -/
def evBodyOk : Ev → Bool
  | Ev.up _ body _ => decide (1 ≤ body.length)
  | _ => true

/-- The successful upload calls of the trace in ascending part-number
order. -/
def ascUploads (w : S3Writer) : List (Nat × List Byte) :=
  sortByPn (upOks w.trace)

/-- The bytes the reader still has to deliver: the leftover buffer followed
by the not-yet-fetched tail of the requested window. -/
def restOf (cl : GetClient) (s : ChunkStreamer) : List Byte :=
  s.buffer ++ (cl.obj.drop s.currentOffset).take (s.offset + s.size - s.currentOffset)

/-- Well-formedness of a reader state: the requested window lies within the
object, the chunk size is positive, and the eof flag is never set early. -/
def RInv (cl : GetClient) (s : ChunkStreamer) : Prop :=
  s.offset + s.size ≤ cl.obj.length
  ∧ 1 ≤ s.chunkSize
  ∧ (s.eof = true → s.offset + s.size ≤ s.currentOffset)

/-! ## Claim C7: compression detection -/

/-- C7: the detector classifies sequences beginning with the gzip magic
bytes as Gzip, sequences beginning with the bzip2 magic bytes as Bzip2, and
every other sequence — the empty sequence and sequences shorter than a
signature included — as uncompressed (total functions: no out-of-bounds
access is possible in the model, and short inputs fall to the last clause). -/
theorem c7_detect_compression (s : List Byte) :
    (s.take 2 = gzipMagic → DetectCompression s = Compression.Gzip)
    ∧ (s.take 3 = bzip2Magic → DetectCompression s = Compression.Bzip2)
    ∧ (s.take 2 ≠ gzipMagic ∧ s.take 3 ≠ bzip2Magic →
        DetectCompression s = Compression.Uncompressed)
    ∧ (s.length ≤ 1 → DetectCompression s = Compression.Uncompressed) := by
  rcases s with _ | ⟨a, _ | ⟨b, _ | ⟨c, t⟩⟩⟩
  · simp [DetectCompression, matchesMagic, gzipMagic, bzip2Magic]
  · simp [DetectCompression, matchesMagic, gzipMagic, bzip2Magic]
  · simp [DetectCompression, matchesMagic, gzipMagic, bzip2Magic]
  · constructor
    · rintro h
      simp [gzipMagic] at h
      simp [DetectCompression, matchesMagic, gzipMagic, bzip2Magic, h.1, h.2]
    constructor
    · rintro h
      simp [bzip2Magic] at h
      simp [DetectCompression, matchesMagic, gzipMagic, bzip2Magic, h.1, h.2.1, h.2.2]
    constructor
    · rintro ⟨h1, h2⟩
      simp [gzipMagic] at h1
      simp [bzip2Magic] at h2
      simp [DetectCompression, matchesMagic, gzipMagic, bzip2Magic]
      split_ifs with hb hg
      · exact absurd hb.2.2 (h2 hb.1 hb.2.1)
      · exact absurd hg.2 (h1 hg.1)
      · rfl
    · intro h; simp at h

/-- Witness for C7 at concrete inputs of each class. -/
theorem c7_detect_compression_witness :
    DetectCompression [0x1F, 0x8B, 0, 0] = Compression.Gzip
    ∧ DetectCompression [0x42, 0x5A, 0x68, 7] = Compression.Bzip2
    ∧ DetectCompression [0x42, 0x5A] = Compression.Uncompressed
    ∧ DetectCompression [] = Compression.Uncompressed :=
  ⟨(c7_detect_compression [0x1F, 0x8B, 0, 0]).1 (by decide),
   (c7_detect_compression [0x42, 0x5A, 0x68, 7]).2.1 (by decide),
   (c7_detect_compression [0x42, 0x5A]).2.2.1 (by decide),
   (c7_detect_compression []).2.2.2 (by decide)⟩

/-! ## Claim C4 (corrected): result shapes of Read -/

/-- C4 counterexample: the claim "no call returns zero bytes together with a
nil error" fails as stated. A Read with a zero-length destination buffer on
a fresh reader over the one-byte object [42] fetches the chunk, copies zero
bytes, and returns zero bytes with a nil error. -/
theorem c4_counterexample :
    (ChunkStreamer.Read (okGetClient [42]) (NewChunkStreamer 0 1 1) 0).2.1.length = 0
    ∧ (ChunkStreamer.Read (okGetClient [42]) (NewChunkStreamer 0 1 1) 0).2.2 = none := by
  decide

/-- C4 amended: every Read call with a destination buffer of capacity at
least one, on a reader with positive chunk size whose window lies within the
object, returns exactly one of the three shapes: positive byte count with no
error, zero bytes with the end-of-stream marker, or zero bytes with a range
fetch error. -/
theorem c4_read_shapes (cl : GetClient) (s : ChunkStreamer) (blen : Nat)
    (hb : 1 ≤ blen) (hc : 1 ≤ s.chunkSize)
    (hwin : s.offset + s.size ≤ cl.obj.length) :
    (0 < (ChunkStreamer.Read cl s blen).2.1.length
        ∧ (ChunkStreamer.Read cl s blen).2.2 = none)
    ∨ ((ChunkStreamer.Read cl s blen).2.1 = []
        ∧ (ChunkStreamer.Read cl s blen).2.2 = some RErr.eofMark)
    ∨ ((ChunkStreamer.Read cl s blen).2.1 = []
        ∧ ∃ a b, (ChunkStreamer.Read cl s blen).2.2 = some (RErr.chunkFailed a b)) := by
  unfold ChunkStreamer.Read
  split_ifs with h1 h2 h3
  · right; left; exact ⟨rfl, rfl⟩
  · left
    refine ⟨?_, rfl⟩
    simp only [List.length_take]
    omega
  · right; left; exact ⟨rfl, rfl⟩
  · by_cases hf : cl.failAt s.currentOffset
        ((s.currentOffset + s.chunkSize - 1) ⊓ (s.offset + s.size - 1)) = true
    · right; right
      simp [hf]
    · left
      simp only [hf, Bool.false_eq_true, if_false]
      refine ⟨?_, by trivial⟩
      have h5 : s.currentOffset ≤ (s.currentOffset + s.chunkSize - 1) ⊓ (s.offset + s.size - 1) :=
        le_min (by omega) (by omega)
      simp only [List.length_take, List.length_drop, lt_min_iff]
      exact ⟨by omega, by omega, by omega⟩

/-- Witness for the amended C4 on a concrete reader in each shape. -/
theorem c4_read_shapes_witness :
    ((0 < (ChunkStreamer.Read (okGetClient [5, 6]) (NewChunkStreamer 0 2 1) 1).2.1.length
        ∧ (ChunkStreamer.Read (okGetClient [5, 6]) (NewChunkStreamer 0 2 1) 1).2.2 = none)
      ∨ ((ChunkStreamer.Read (okGetClient [5, 6]) (NewChunkStreamer 0 2 1) 1).2.1 = []
        ∧ (ChunkStreamer.Read (okGetClient [5, 6]) (NewChunkStreamer 0 2 1) 1).2.2
            = some RErr.eofMark)
      ∨ ((ChunkStreamer.Read (okGetClient [5, 6]) (NewChunkStreamer 0 2 1) 1).2.1 = []
        ∧ ∃ a b, (ChunkStreamer.Read (okGetClient [5, 6]) (NewChunkStreamer 0 2 1) 1).2.2
            = some (RErr.chunkFailed a b))) :=
  c4_read_shapes (okGetClient [5, 6]) (NewChunkStreamer 0 2 1) 1
    (by decide) (by decide) (by decide)

/-! ## Claim C5: fetch failure leaves the cursor unchanged -/

/-- C5: when the range fetch fails, Read returns zero bytes and an error
carrying the failed byte range, leaves the cursor state (current offset,
leftover buffer, eof flag) unmodified, and the next Read call on the same
reader issues a fetch for the identical range. -/
theorem c5_fetch_failure (cl : GetClient) (s : ChunkStreamer) (blen blen2 : Nat)
    (hb : s.buffer = []) (he : s.eof = false)
    (hlt : s.currentOffset < s.offset + s.size)
    (hf : cl.failAt s.currentOffset
        ((s.currentOffset + s.chunkSize - 1) ⊓ (s.offset + s.size - 1)) = true) :
    (ChunkStreamer.Read cl s blen).2.1 = []
    ∧ (ChunkStreamer.Read cl s blen).2.2 = some (RErr.chunkFailed s.currentOffset
        ((s.currentOffset + s.chunkSize - 1) ⊓ (s.offset + s.size - 1)))
    ∧ (ChunkStreamer.Read cl s blen).1.currentOffset = s.currentOffset
    ∧ (ChunkStreamer.Read cl s blen).1.buffer = s.buffer
    ∧ (ChunkStreamer.Read cl s blen).1.eof = s.eof
    ∧ (ChunkStreamer.Read cl s blen).1.fetches = s.fetches ++ [(s.currentOffset,
        (s.currentOffset + s.chunkSize - 1) ⊓ (s.offset + s.size - 1))]
    ∧ (ChunkStreamer.Read cl (ChunkStreamer.Read cl s blen).1 blen2).1.fetches
        = s.fetches ++ [(s.currentOffset,
            (s.currentOffset + s.chunkSize - 1) ⊓ (s.offset + s.size - 1)),
          (s.currentOffset,
            (s.currentOffset + s.chunkSize - 1) ⊓ (s.offset + s.size - 1))] := by
  unfold ChunkStreamer.Read
  simp [hb, he, hf, Nat.not_le.mpr hlt]

/-- Witness for C5: a concrete failing fetch on the object [1, 2, 3]. -/
theorem c5_fetch_failure_witness :
    (ChunkStreamer.Read (failGetClient [1, 2, 3]) (NewChunkStreamer 0 3 2) 4).2.1 = []
    ∧ (ChunkStreamer.Read (failGetClient [1, 2, 3]) (NewChunkStreamer 0 3 2) 4).2.2
        = some (RErr.chunkFailed 0 ((0 + 2 - 1) ⊓ (0 + 3 - 1)))
    ∧ (ChunkStreamer.Read (failGetClient [1, 2, 3])
        (NewChunkStreamer 0 3 2) 4).1.currentOffset = (NewChunkStreamer 0 3 2).currentOffset
    ∧ (ChunkStreamer.Read (failGetClient [1, 2, 3])
        (NewChunkStreamer 0 3 2) 4).1.buffer = (NewChunkStreamer 0 3 2).buffer
    ∧ (ChunkStreamer.Read (failGetClient [1, 2, 3])
        (NewChunkStreamer 0 3 2) 4).1.eof = (NewChunkStreamer 0 3 2).eof
    ∧ (ChunkStreamer.Read (failGetClient [1, 2, 3])
        (NewChunkStreamer 0 3 2) 4).1.fetches
        = (NewChunkStreamer 0 3 2).fetches ++ [(0, (0 + 2 - 1) ⊓ (0 + 3 - 1))]
    ∧ (ChunkStreamer.Read (failGetClient [1, 2, 3])
        (ChunkStreamer.Read (failGetClient [1, 2, 3]) (NewChunkStreamer 0 3 2) 4).1 9).1.fetches
        = (NewChunkStreamer 0 3 2).fetches
            ++ [(0, (0 + 2 - 1) ⊓ (0 + 3 - 1)), (0, (0 + 2 - 1) ⊓ (0 + 3 - 1))] := by
  have h := c5_fetch_failure (failGetClient [1, 2, 3]) (NewChunkStreamer 0 3 2) 4 9
    (by decide) (by decide) (by decide) (by decide)
  simpa using h

/-! ## Writer helper lemmas: field preservation and trace extension -/

theorem upOks_append (t1 t2 : List Ev) : upOks (t1 ++ t2) = upOks t1 ++ upOks t2 := by
  simp [upOks]

/-- Every event appended to the trace by `uploadPart` is an upload call with
a non-empty body; uploadID, partSize, closed and err are untouched. -/
theorem uploadPart_basic (c : S3ClientW) (w : S3Writer) :
    (S3Writer.uploadPart c w).1.uploadID = w.uploadID
    ∧ (S3Writer.uploadPart c w).1.partSize = w.partSize
    ∧ (S3Writer.uploadPart c w).1.closed = w.closed
    ∧ (S3Writer.uploadPart c w).1.err = w.err
    ∧ (∀ e ∈ (S3Writer.uploadPart c w).1.trace, e ∈ w.trace ∨ evBodyOk e = true) := by
  unfold S3Writer.uploadPart
  split_ifs with h1 h2
  · exact ⟨rfl, rfl, rfl, rfl, fun e he => Or.inl he⟩
  · exact ⟨rfl, rfl, rfl, rfl, fun e he => Or.inl he⟩
  · have hb : 1 ≤ w.buffer.length := by omega
    cases hr : c.uploadPartRes w.partNumber w.buffer with
    | error m =>
        dsimp only
        refine ⟨rfl, rfl, rfl, rfl, fun e he => ?_⟩
        simp only [List.mem_append, List.mem_singleton] at he
        rcases he with he | he
        · exact Or.inl he
        · right; subst he; simp [evBodyOk, hb]
    | ok etag =>
        dsimp only
        split_ifs with h3
        · refine ⟨rfl, rfl, rfl, rfl, fun e he => ?_⟩
          simp only [List.mem_append, List.mem_singleton] at he
          rcases he with he | he
          · exact Or.inl he
          · right; subst he; simp [evBodyOk, hb]
        · refine ⟨rfl, rfl, rfl, rfl, fun e he => ?_⟩
          simp only [List.mem_append, List.mem_singleton] at he
          rcases he with he | he
          · exact Or.inl he
          · right; subst he; simp [evBodyOk, hb]

/-- Events appended by `completeMultipartUpload` are completion calls;
uploadID, partSize, closed, err, buffer and partNumber are untouched. -/
theorem completeMU_basic (c : S3ClientW) (w : S3Writer) :
    (S3Writer.completeMultipartUpload c w).1.uploadID = w.uploadID
    ∧ (S3Writer.completeMultipartUpload c w).1.partSize = w.partSize
    ∧ (S3Writer.completeMultipartUpload c w).1.closed = w.closed
    ∧ (S3Writer.completeMultipartUpload c w).1.err = w.err
    ∧ (S3Writer.completeMultipartUpload c w).1.buffer = w.buffer
    ∧ (S3Writer.completeMultipartUpload c w).1.partNumber = w.partNumber
    ∧ (∀ e ∈ (S3Writer.completeMultipartUpload c w).1.trace,
        e ∈ w.trace ∨ evBodyOk e = true) := by
  unfold S3Writer.completeMultipartUpload
  cases hu : w.uploadID with
  | none => exact ⟨hu, rfl, rfl, rfl, rfl, rfl, fun e he => Or.inl he⟩
  | some uid =>
      dsimp only
      split_ifs with h1
      · exact ⟨hu, rfl, rfl, rfl, rfl, rfl, fun e he => Or.inl he⟩
      · cases hfi : (sortByPn w.parts).findIdx? (fun pr => pr.2 == "") with
        | some i =>
            dsimp only
            exact ⟨rfl, rfl, rfl, rfl, rfl, rfl, fun e he => Or.inl he⟩
        | none =>
            dsimp only
            cases hcr : c.completeRes (sortByPn w.parts) with
            | error m =>
                dsimp only
                refine ⟨rfl, rfl, rfl, rfl, rfl, rfl, fun e he => ?_⟩
                simp only [List.mem_append, List.mem_singleton] at he
                rcases he with he | he
                · exact Or.inl he
                · right; subst he; simp [evBodyOk]
            | ok u =>
                dsimp only
                refine ⟨rfl, rfl, rfl, rfl, rfl, rfl, fun e he => ?_⟩
                simp only [List.mem_append, List.mem_singleton] at he
                rcases he with he | he
                · exact Or.inl he
                · right; subst he; simp [evBodyOk]

/-- Events appended by `abortMultipartUpload` are abort calls; all fields
other than the trace are untouched. -/
theorem abortMU_basic (c : S3ClientW) (w : S3Writer) :
    (S3Writer.abortMultipartUpload c w).1.uploadID = w.uploadID
    ∧ (S3Writer.abortMultipartUpload c w).1.partSize = w.partSize
    ∧ (S3Writer.abortMultipartUpload c w).1.closed = w.closed
    ∧ (S3Writer.abortMultipartUpload c w).1.err = w.err
    ∧ (S3Writer.abortMultipartUpload c w).1.buffer = w.buffer
    ∧ (S3Writer.abortMultipartUpload c w).1.partNumber = w.partNumber
    ∧ (S3Writer.abortMultipartUpload c w).1.parts = w.parts
    ∧ (∀ e ∈ (S3Writer.abortMultipartUpload c w).1.trace,
        e ∈ w.trace ∨ evBodyOk e = true) := by
  unfold S3Writer.abortMultipartUpload
  cases hu : w.uploadID with
  | none => exact ⟨hu, rfl, rfl, rfl, rfl, rfl, rfl, fun e he => Or.inl he⟩
  | some uid =>
      dsimp only
      cases har : c.abortRes with
      | error m =>
          dsimp only
          refine ⟨rfl, rfl, rfl, rfl, rfl, rfl, rfl, fun e he => ?_⟩
          simp only [List.mem_append, List.mem_singleton] at he
          rcases he with he | he
          · exact Or.inl he
          · right; subst he; simp [evBodyOk]
      | ok u =>
          dsimp only
          refine ⟨rfl, rfl, rfl, rfl, rfl, rfl, rfl, fun e he => ?_⟩
          simp only [List.mem_append, List.mem_singleton] at he
          rcases he with he | he
          · exact Or.inl he
          · right; subst he; simp [evBodyOk]

theorem traceExt_trans {t1 t2 t3 : List Ev}
    (h12 : ∀ e ∈ t2, e ∈ t1 ∨ evBodyOk e = true)
    (h23 : ∀ e ∈ t3, e ∈ t2 ∨ evBodyOk e = true) :
    ∀ e ∈ t3, e ∈ t1 ∨ evBodyOk e = true := by
  intro e he
  rcases h23 e he with h | h
  · exact h12 e h
  · exact Or.inr h

theorem writeLoop_basic (c : S3ClientW) :
    ∀ (fuel : Nat) (w : S3Writer) (p : List Byte) (total : Nat),
      (writeLoop c fuel w p total).1.uploadID = w.uploadID
      ∧ (writeLoop c fuel w p total).1.partSize = w.partSize
      ∧ (writeLoop c fuel w p total).1.closed = w.closed
      ∧ (∀ e ∈ (writeLoop c fuel w p total).1.trace, e ∈ w.trace ∨ evBodyOk e = true) := by
  intro fuel
  induction fuel with
  | zero => intro w p total; exact ⟨rfl, rfl, rfl, fun e he => Or.inl he⟩
  | succ fuel ih =>
      intro w p total
      unfold writeLoop
      split_ifs with hp hfl
      · exact ⟨rfl, rfl, rfl, fun e he => Or.inl he⟩
      · -- the buffer is full: the loop flushes it first
        have hup : ∃ res : S3Writer × Option WErr, S3Writer.uploadPart c w = res := ⟨_, rfl⟩
        obtain ⟨⟨w1, r⟩, hup⟩ := hup
        have h := uploadPart_basic c w
        rw [hup] at h
        rw [hup]
        cases r with
        | some e => exact ⟨h.1, h.2.1, h.2.2.1, h.2.2.2.2⟩
        | none =>
            dsimp only
            split_ifs with hfl2
            · have hup2 : ∃ res : S3Writer × Option WErr,
                  S3Writer.uploadPart c
                    { w1 with buffer := w1.buffer ++ p.take (min p.length (w1.partSize - w1.buffer.length)) }
                    = res := ⟨_, rfl⟩
              obtain ⟨⟨w3, r2⟩, hup2⟩ := hup2
              have h2 := uploadPart_basic c
                  { w1 with buffer := w1.buffer ++ p.take (min p.length (w1.partSize - w1.buffer.length)) }
              rw [hup2] at h2
              rw [hup2]
              cases r2 with
              | some e =>
                  exact ⟨h2.1.trans h.1, h2.2.1.trans h.2.1, h2.2.2.1.trans h.2.2.1,
                    traceExt_trans h.2.2.2.2 h2.2.2.2.2⟩
              | none =>
                  have hrec := ih w3 (p.drop (min p.length (w1.partSize - w1.buffer.length)))
                    (total + min p.length (w1.partSize - w1.buffer.length))
                  exact ⟨hrec.1.trans (h2.1.trans h.1), hrec.2.1.trans (h2.2.1.trans h.2.1),
                    hrec.2.2.1.trans (h2.2.2.1.trans h.2.2.1),
                    traceExt_trans (traceExt_trans h.2.2.2.2 h2.2.2.2.2) hrec.2.2.2⟩
            · have hrec := ih
                { w1 with buffer := w1.buffer ++ p.take (min p.length (w1.partSize - w1.buffer.length)) }
                (p.drop (min p.length (w1.partSize - w1.buffer.length)))
                (total + min p.length (w1.partSize - w1.buffer.length))
              exact ⟨hrec.1.trans h.1, hrec.2.1.trans h.2.1, hrec.2.2.1.trans h.2.2.1,
                traceExt_trans h.2.2.2.2 hrec.2.2.2⟩
      · -- no initial flush needed
        dsimp only
        split_ifs with hfl2
        · have hup2 : ∃ res : S3Writer × Option WErr,
              S3Writer.uploadPart c
                { w with buffer := w.buffer ++ p.take (min p.length (w.partSize - w.buffer.length)) }
                = res := ⟨_, rfl⟩
          obtain ⟨⟨w3, r2⟩, hup2⟩ := hup2
          have h2 := uploadPart_basic c
              { w with buffer := w.buffer ++ p.take (min p.length (w.partSize - w.buffer.length)) }
          rw [hup2] at h2
          rw [hup2]
          cases r2 with
          | some e => exact ⟨h2.1, h2.2.1, h2.2.2.1, h2.2.2.2.2⟩
          | none =>
              have hrec := ih w3 (p.drop (min p.length (w.partSize - w.buffer.length)))
                (total + min p.length (w.partSize - w.buffer.length))
              exact ⟨hrec.1.trans h2.1, hrec.2.1.trans h2.2.1, hrec.2.2.1.trans h2.2.2.1,
                traceExt_trans h2.2.2.2.2 hrec.2.2.2⟩
        · have hrec := ih
            { w with buffer := w.buffer ++ p.take (min p.length (w.partSize - w.buffer.length)) }
            (p.drop (min p.length (w.partSize - w.buffer.length)))
            (total + min p.length (w.partSize - w.buffer.length))
          exact ⟨hrec.1, hrec.2.1, hrec.2.2.1, hrec.2.2.2⟩

theorem Write_basic (c : S3ClientW) (w : S3Writer) (p : List Byte) :
    (S3Writer.Write c w p).1.uploadID = w.uploadID
    ∧ (S3Writer.Write c w p).1.partSize = w.partSize
    ∧ (S3Writer.Write c w p).1.closed = w.closed
    ∧ (∀ e ∈ (S3Writer.Write c w p).1.trace, e ∈ w.trace ∨ evBodyOk e = true) := by
  unfold S3Writer.Write
  split_ifs with h1 h2
  · exact ⟨rfl, rfl, rfl, fun e he => Or.inl he⟩
  · exact ⟨rfl, rfl, rfl, fun e he => Or.inl he⟩
  · cases he : w.err with
    | some e => exact ⟨rfl, rfl, rfl, fun e he => Or.inl he⟩
    | none => exact writeLoop_basic c p.length w p 0

theorem Close_basic (c : S3ClientW) (w : S3Writer) :
    (S3Writer.Close c w).1.uploadID = w.uploadID
    ∧ (S3Writer.Close c w).1.partSize = w.partSize
    ∧ (∀ e ∈ (S3Writer.Close c w).1.trace, e ∈ w.trace ∨ evBodyOk e = true) := by
  unfold S3Writer.Close
  split_ifs with h1 h2 h3 hfl
  · exact ⟨rfl, rfl, fun e he => Or.inl he⟩
  · have hA := abortMU_basic c { w with closed := true }
    exact ⟨hA.1, hA.2.1, hA.2.2.2.2.2.2.2⟩
  · exact ⟨rfl, rfl, fun e he => Or.inl he⟩
  · -- final flush of a non-empty buffer, then completion
    have hup : ∃ res : S3Writer × Option WErr,
        S3Writer.uploadPart c { w with closed := true } = res := ⟨_, rfl⟩
    obtain ⟨⟨w2, r⟩, hup⟩ := hup
    have h := uploadPart_basic c { w with closed := true }
    rw [hup] at h
    rw [hup]
    cases r with
    | some e =>
        have hA := abortMU_basic c { w2 with err := some e }
        exact ⟨hA.1.trans h.1, hA.2.1.trans h.2.1,
          traceExt_trans h.2.2.2.2 hA.2.2.2.2.2.2.2⟩
    | none =>
        dsimp only
        have hcm : ∃ res : S3Writer × Option WErr,
            S3Writer.completeMultipartUpload c w2 = res := ⟨_, rfl⟩
        obtain ⟨⟨w3, r2⟩, hcm⟩ := hcm
        have hC := completeMU_basic c w2
        rw [hcm] at hC
        rw [hcm]
        cases r2 with
        | some e =>
            have hA := abortMU_basic c { w3 with err := some e }
            exact ⟨hA.1.trans (hC.1.trans h.1), hA.2.1.trans (hC.2.1.trans h.2.1),
              traceExt_trans (traceExt_trans h.2.2.2.2 hC.2.2.2.2.2.2) hA.2.2.2.2.2.2.2⟩
        | none =>
            exact ⟨hC.1.trans h.1, hC.2.1.trans h.2.1,
              traceExt_trans h.2.2.2.2 hC.2.2.2.2.2.2⟩
  · -- empty buffer: straight to completion
    dsimp only
    have hcm : ∃ res : S3Writer × Option WErr,
        S3Writer.completeMultipartUpload c { w with closed := true } = res := ⟨_, rfl⟩
    obtain ⟨⟨w3, r2⟩, hcm⟩ := hcm
    have hC := completeMU_basic c { w with closed := true }
    rw [hcm] at hC
    rw [hcm]
    cases r2 with
    | some e =>
        have hA := abortMU_basic c { w3 with err := some e }
        exact ⟨hA.1.trans hC.1, hA.2.1.trans hC.2.1,
          traceExt_trans hC.2.2.2.2.2.2 hA.2.2.2.2.2.2.2⟩
    | none =>
        exact ⟨hC.1, hC.2.1, hC.2.2.2.2.2.2⟩

theorem Abort_basic (c : S3ClientW) (w : S3Writer) :
    (S3Writer.Abort c w).1.uploadID = w.uploadID
    ∧ (S3Writer.Abort c w).1.partSize = w.partSize
    ∧ (∀ e ∈ (S3Writer.Abort c w).1.trace, e ∈ w.trace ∨ evBodyOk e = true) := by
  unfold S3Writer.Abort
  split_ifs with h1
  · have hA := abortMU_basic c w
    exact ⟨hA.1, hA.2.1, hA.2.2.2.2.2.2.2⟩
  · have hA := abortMU_basic c { w with closed := true }
    exact ⟨hA.1, hA.2.1, hA.2.2.2.2.2.2.2⟩

/-- When a session exists, `Abort` issues the abort call and returns its
result. -/
theorem Abort_spec (c : S3ClientW) (w : S3Writer) (uid : String)
    (h : w.uploadID = some uid) :
    (S3Writer.Abort c w).1.trace = w.trace ++ [abortEv c]
    ∧ (S3Writer.Abort c w).2 = abortErrOf c := by
  unfold S3Writer.Abort S3Writer.abortMultipartUpload abortEv abortErrOf
  split_ifs with h1 <;> dsimp only <;> rw [h] <;> dsimp only <;>
    cases c.abortRes <;> dsimp only <;> exact ⟨rfl, rfl⟩

/-- When no session was ever created, `Abort` makes no backing-store call
and reports no error. -/
theorem Abort_skip (c : S3ClientW) (w : S3Writer) (h : w.uploadID = none) :
    (S3Writer.Abort c w).1.trace = w.trace ∧ (S3Writer.Abort c w).2 = none := by
  unfold S3Writer.Abort S3Writer.abortMultipartUpload
  split_ifs with h1 <;> dsimp only <;> rw [h] <;> exact ⟨rfl, rfl⟩

theorem runOps_basic (c : S3ClientW) :
    ∀ (ops : List WOp) (w : S3Writer),
      (runOps c w ops).uploadID = w.uploadID
      ∧ (∀ e ∈ (runOps c w ops).trace, e ∈ w.trace ∨ evBodyOk e = true) := by
  intro ops
  induction ops with
  | nil => intro w; exact ⟨rfl, fun e he => Or.inl he⟩
  | cons op ops ih =>
      intro w
      unfold runOps
      cases op with
      | write p =>
          dsimp only [applyOp]
          refine ⟨?_, ?_⟩
          · rw [(ih _).1, (Write_basic c w p).1]
          · exact traceExt_trans (Write_basic c w p).2.2.2 (ih _).2
      | close =>
          dsimp only [applyOp]
          refine ⟨?_, ?_⟩
          · rw [(ih _).1, (Close_basic c w).1]
          · exact traceExt_trans (Close_basic c w).2.2 (ih _).2
      | abort =>
          dsimp only [applyOp]
          refine ⟨?_, ?_⟩
          · rw [(ih _).1, (Abort_basic c w).1]
          · exact traceExt_trans (Abort_basic c w).2.2 (ih _).2

/-! ## Claim C9: the writer never uploads a zero-length part -/

/-- C9: along every sequence of Write, Close and Abort calls on a fresh
writer, under every client behaviour, every uploadPart call recorded in the
trace carries a non-empty body: the internal flush is a no-op on an empty
buffer and Close skips the final flush when nothing is buffered. -/
theorem c9_no_empty_parts (c : S3ClientW) (psz : Nat) (uid : String) (ops : List WOp) :
    (runOps c (initWriter psz uid) ops).trace.all evBodyOk = true := by
  have h := (runOps_basic c ops (initWriter psz uid)).2
  rw [List.all_eq_true]
  intro e he
  rcases h e he with h' | h'
  · simp [initWriter] at h'
  · exact h'

/-! ## Claim C10: Abort after a successful Close still aborts the session -/

/-- C10: the upload id is never cleared, so calling Abort on a writer whose
Close already completed successfully still issues the abortMultipartUpload
call for the finalized session and returns that call's result; the
backing-store call is skipped only when no session exists. -/
theorem c10_abort_after_close (c : S3ClientW) (psz : Nat) (uid : String) (ops : List WOp)
    (h : (S3Writer.Close c (runOps c (initWriter psz uid) ops)).2 = none) :
    (S3Writer.Close c (runOps c (initWriter psz uid) ops)).1.uploadID = some uid
    ∧ (S3Writer.Abort c (S3Writer.Close c (runOps c (initWriter psz uid) ops)).1).1.trace
        = (S3Writer.Close c (runOps c (initWriter psz uid) ops)).1.trace ++ [abortEv c]
    ∧ (S3Writer.Abort c (S3Writer.Close c (runOps c (initWriter psz uid) ops)).1).2
        = abortErrOf c
    ∧ (∀ w2 : S3Writer, w2.uploadID = none →
        (S3Writer.Abort c w2).1.trace = w2.trace ∧ (S3Writer.Abort c w2).2 = none) := by
  have hu : (S3Writer.Close c (runOps c (initWriter psz uid) ops)).1.uploadID = some uid := by
    rw [(Close_basic c _).1, (runOps_basic c _ _).1]; rfl
  exact ⟨hu, (Abort_spec c _ uid hu).1, (Abort_spec c _ uid hu).2,
    fun w2 h2 => Abort_skip c w2 h2⟩

/-- Witness for C10: one part written, Close succeeds, and the subsequent
Abort issues the backing-store abort for the same session. -/
theorem c10_abort_after_close_witness :
    ((S3Writer.Close okClientW (runOps okClientW (initWriter 2 "uid") [WOp.write [1]])).2 = none)
    ∧ ((S3Writer.Close okClientW (runOps okClientW (initWriter 2 "uid")
          [WOp.write [1]])).1.uploadID = some "uid"
      ∧ (S3Writer.Abort okClientW (S3Writer.Close okClientW (runOps okClientW
          (initWriter 2 "uid") [WOp.write [1]])).1).1.trace
        = (S3Writer.Close okClientW (runOps okClientW (initWriter 2 "uid")
            [WOp.write [1]])).1.trace ++ [abortEv okClientW]
      ∧ (S3Writer.Abort okClientW (S3Writer.Close okClientW (runOps okClientW
          (initWriter 2 "uid") [WOp.write [1]])).1).2 = abortErrOf okClientW
      ∧ (∀ w2 : S3Writer, w2.uploadID = none →
          (S3Writer.Abort okClientW w2).1.trace = w2.trace
          ∧ (S3Writer.Abort okClientW w2).2 = none)) :=
  ⟨by decide, c10_abort_after_close okClientW 2 "uid" [WOp.write [1]] (by decide)⟩

/-! ## Claim C6 (code bug): errors are not sticky across Close -/

/-- A fresh writer fed at least one full part whose upload fails: `Write`
records the error, reports the bytes accepted so far, and leaves the part
still buffered. -/
theorem write_first_flush_fails (c : S3ClientW) (psz : Nat) (uid : String) (p : List Byte)
    (m : String) (hctx : c.ctxDone = false) (h1 : 1 ≤ psz) (h2 : psz ≤ p.length)
    (hup : c.uploadPartRes 1 (p.take psz) = Except.error m) :
    S3Writer.Write c (initWriter psz uid) p =
      ({ partSize := psz, uploadID := some uid, buffer := p.take psz, partNumber := 1,
         parts := [], closed := false, err := some (WErr.uploadFailed 1 m),
         trace := [Ev.up 1 (p.take psz) false] }, psz, some (WErr.uploadFailed 1 m)) := by
  have e1 : S3Writer.Write c (initWriter psz uid) p
      = writeLoop c p.length (initWriter psz uid) p 0 := by
    unfold S3Writer.Write
    rw [hctx]
    rfl
  rw [e1]
  obtain ⟨n, hn⟩ : ∃ n, p.length = n + 1 := ⟨p.length - 1, by omega⟩
  rw [hn]
  unfold writeLoop
  have hp : ¬ p = [] := by intro h; rw [h] at hn; simp at hn
  rw [if_neg hp]
  have hc1 : ¬ ((initWriter psz uid).partSize ≤ (initWriter psz uid).buffer.length) := by
    simp [initWriter]; omega
  rw [if_neg hc1]
  dsimp only [initWriter]
  simp only [List.length_nil, Nat.sub_zero, List.nil_append]
  have hmin : min p.length psz = psz := by omega
  rw [hmin]
  have hl : (p.take psz).length = psz := by
    rw [List.length_take]; exact Nat.min_eq_left h2
  have hc2 : psz ≤ (p.take psz).length := by rw [hl]
  rw [if_pos hc2]
  unfold S3Writer.uploadPart
  dsimp only
  have hc3 : ¬ ((p.take psz).length = 0) := by rw [hl]; omega
  rw [if_neg hc3]
  have hc4 : ¬ (10000 < 1) := by omega
  rw [if_neg hc4]
  rw [hup]
  simp

/-- On a writer in the failed state left by such a Write (error recorded,
not closed, the failed part still buffered), `Close` re-issues the part
upload and then the session abort: two further backing-store calls. -/
theorem close_after_failed_write (c : S3ClientW) (w : S3Writer) (uid : String) (m : String)
    (hctx : c.ctxDone = false) (hcl : w.closed = false) (hbuf : 0 < w.buffer.length)
    (hpn : ¬ 10000 < w.partNumber)
    (hup : c.uploadPartRes w.partNumber w.buffer = Except.error m)
    (habort : c.abortRes = Except.ok ()) (huid : w.uploadID = some uid) :
    (S3Writer.Close c w).1.trace
        = w.trace ++ [Ev.up w.partNumber w.buffer false, Ev.abort true]
    ∧ (S3Writer.Close c w).2 = some (WErr.uploadFailed w.partNumber m)
    ∧ (S3Writer.Close c w).1.closed = true := by
  unfold S3Writer.Close
  rw [hctx]
  have hclP : ¬ (w.closed = true) := by simp [hcl]
  simp only [Bool.false_eq_true, if_false, if_neg hclP]
  rw [if_pos hbuf]
  unfold S3Writer.uploadPart
  have hc3 : ¬ (({ w with closed := true } : S3Writer).buffer.length = 0) := by
    dsimp only; omega
  rw [if_neg hc3]
  rw [if_neg hpn]
  dsimp only
  rw [hup]
  dsimp only
  unfold S3Writer.abortMultipartUpload
  dsimp only
  rw [huid]
  dsimp only
  rw [habort]
  simp

/-- A closed writer rejects Write with the closed-writer error, not the
recorded one. -/
theorem write_to_closed (c : S3ClientW) (w : S3Writer) (p : List Byte)
    (hctx : c.ctxDone = false) (hcl : w.closed = true) :
    S3Writer.Write c w p = (w, 0, some WErr.closedWriter) := by
  unfold S3Writer.Write
  rw [hctx, hcl]
  rfl

/-- C6 evaluated on the code: after a Write whose part upload failed has
recorded the error, Close performs two further backing-store calls (the
part-upload retry and the abort) instead of returning without I/O, and a
subsequent Write returns the closed-writer error instead of the recorded
one. This contradicts the claim (and the writer's own documentation), for
every part size ≥ 1 — the real 5 MiB minimum included — whenever at least
one full part is written. -/
theorem c6_error_not_sticky (psz : Nat) (uid : String) (p : List Byte)
    (h1 : 1 ≤ psz) (h2 : psz ≤ p.length) :
    (S3Writer.Write failUploadClient (initWriter psz uid) p).1.err
        = some (WErr.uploadFailed 1 "boom")
    ∧ (S3Writer.Close failUploadClient
          (S3Writer.Write failUploadClient (initWriter psz uid) p).1).1.trace
        = (S3Writer.Write failUploadClient (initWriter psz uid) p).1.trace
            ++ [Ev.up 1 (p.take psz) false, Ev.abort true]
    ∧ (S3Writer.Close failUploadClient
          (S3Writer.Write failUploadClient (initWriter psz uid) p).1).2
        = some (WErr.uploadFailed 1 "boom")
    ∧ (S3Writer.Write failUploadClient
          (S3Writer.Close failUploadClient
            (S3Writer.Write failUploadClient (initWriter psz uid) p).1).1 [0]).2.2
        = some WErr.closedWriter := by
  have hw := write_first_flush_fails failUploadClient psz uid p "boom" rfl h1 h2 rfl
  rw [hw]
  have hc := close_after_failed_write failUploadClient
    { partSize := psz, uploadID := some uid, buffer := p.take psz, partNumber := 1,
      parts := [], closed := false, err := some (WErr.uploadFailed 1 "boom"),
      trace := [Ev.up 1 (p.take psz) false] } uid "boom" rfl rfl
    (show 0 < (p.take psz).length by rw [List.length_take, Nat.min_eq_left h2]; omega)
    (show ¬ 10000 < 1 by omega) rfl rfl rfl
  refine ⟨rfl, hc.1, hc.2.1, ?_⟩
  rw [write_to_closed failUploadClient _ [0] rfl hc.2.2]

/-- Witness for C6 at a concrete failing input. -/
theorem c6_error_not_sticky_witness :
    ((S3Writer.Write failUploadClient (initWriter 2 "uid") [1, 2, 3]).1.err
        = some (WErr.uploadFailed 1 "boom")
    ∧ (S3Writer.Close failUploadClient
          (S3Writer.Write failUploadClient (initWriter 2 "uid") [1, 2, 3]).1).1.trace
        = (S3Writer.Write failUploadClient (initWriter 2 "uid") [1, 2, 3]).1.trace
            ++ [Ev.up 1 ([1, 2, 3].take 2) false, Ev.abort true]
    ∧ (S3Writer.Close failUploadClient
          (S3Writer.Write failUploadClient (initWriter 2 "uid") [1, 2, 3]).1).2
        = some (WErr.uploadFailed 1 "boom")
    ∧ (S3Writer.Write failUploadClient
          (S3Writer.Close failUploadClient
            (S3Writer.Write failUploadClient (initWriter 2 "uid") [1, 2, 3]).1).1 [0]).2.2
        = some WErr.closedWriter) :=
  c6_error_not_sticky 2 "uid" [1, 2, 3] (by decide) (by decide)

/-! ## Claim C8: the compressing adapter flushes before closing -/

/-- C8: with an active compression transform, the adapter's Close first
closes the transform — pushing its pending compressed bytes into the
underlying writer via Write — and only then closes the underlying writer;
if flushing the transform fails (the transform's own close failing, or the
underlying write it performs failing), the underlying writer is aborted
rather than closed and the flush error is returned. -/
theorem c8_compressed_close (c : S3ClientW) (cw : CompressedS3Writer) (comp : Compressor)
    (hcomp : cw.compressor = some comp) :
    (comp.closeOK = true →
      (S3Writer.Write c cw.s3Writer comp.pending).2.2 = none →
      CompressedS3Writer.Close c cw
        = S3Writer.Close c (S3Writer.Write c cw.s3Writer comp.pending).1)
    ∧ (comp.closeOK = true →
      ∀ e, (S3Writer.Write c cw.s3Writer comp.pending).2.2 = some e →
      CompressedS3Writer.Close c cw
        = ((S3Writer.Abort c (S3Writer.Write c cw.s3Writer comp.pending).1).1, some e))
    ∧ (comp.closeOK = false →
      CompressedS3Writer.Close c cw
        = ((S3Writer.Abort c cw.s3Writer).1, some WErr.compressorCloseFailed)) := by
  unfold CompressedS3Writer.Close
  rw [hcomp]
  dsimp only
  unfold Compressor.close
  have hwr : ∃ res : S3Writer × Nat × Option WErr,
      S3Writer.Write c cw.s3Writer comp.pending = res := ⟨_, rfl⟩
  obtain ⟨⟨w1, n, r⟩, hwr⟩ := hwr
  rw [hwr]
  refine ⟨?_, ?_, ?_⟩
  · intro hok hnone
    dsimp only at hnone
    subst hnone
    rw [hok]
    rfl
  · intro hok e hsome
    dsimp only at hsome
    subst hsome
    rw [hok]
    rfl
  · intro hbad
    rw [hbad]
    rfl

/-- Witness for C8 on a concrete adapter over a fresh writer. -/
theorem c8_compressed_close_witness :
    let cw : CompressedS3Writer :=
      { s3Writer := initWriter 2 "u", compressor := some { pending := [7], closeOK := true } }
    let comp : Compressor := { pending := [7], closeOK := true }
    (comp.closeOK = true →
      (S3Writer.Write okClientW cw.s3Writer comp.pending).2.2 = none →
      CompressedS3Writer.Close okClientW cw
        = S3Writer.Close okClientW (S3Writer.Write okClientW cw.s3Writer comp.pending).1)
    ∧ (comp.closeOK = true →
      ∀ e, (S3Writer.Write okClientW cw.s3Writer comp.pending).2.2 = some e →
      CompressedS3Writer.Close okClientW cw
        = ((S3Writer.Abort okClientW
            (S3Writer.Write okClientW cw.s3Writer comp.pending).1).1, some e))
    ∧ (comp.closeOK = false →
      CompressedS3Writer.Close okClientW cw
        = ((S3Writer.Abort okClientW cw.s3Writer).1, some WErr.compressorCloseFailed)) :=
  c8_compressed_close okClientW
    { s3Writer := initWriter 2 "u", compressor := some { pending := [7], closeOK := true } }
    { pending := [7], closeOK := true } rfl

/-! ## Claim C3: reading to exhaustion reproduces the object -/

/-- One Read call on a well-formed reader with no fetch failures and a
non-empty destination: at end of window it reports end-of-stream, otherwise
it delivers a non-empty prefix of the bytes remaining and the remainder
carries over. -/
theorem read_step (cl : GetClient) (s : ChunkStreamer) (blen : Nat)
    (hinv : RInv cl s) (hfail : ∀ a b, cl.failAt a b = false) (hb : 1 ≤ blen) :
    (restOf cl s = [] → (ChunkStreamer.Read cl s blen).2.2 = some RErr.eofMark)
    ∧ (restOf cl s ≠ [] →
        ∃ n, 1 ≤ n
        ∧ (ChunkStreamer.Read cl s blen).2.1 = (restOf cl s).take n
        ∧ (ChunkStreamer.Read cl s blen).2.2 = none
        ∧ restOf cl (ChunkStreamer.Read cl s blen).1 = (restOf cl s).drop n
        ∧ RInv cl (ChunkStreamer.Read cl s blen).1) := by
  obtain ⟨hwin, hcs, heof⟩ := hinv
  unfold ChunkStreamer.Read
  split_ifs with h1 h2 h3
  · -- eof reached and nothing buffered
    have hbe : s.buffer = [] := List.length_eq_zero.mp h1.2
    have hco : s.offset + s.size - s.currentOffset = 0 := by
      have := heof h1.1; omega
    constructor
    · intro _; rfl
    · intro hne
      exact absurd (by simp [restOf, hbe, hco]) hne
  · -- leftover buffer served without a network call
    constructor
    · intro hr
      rw [restOf] at hr
      rw [(List.append_eq_nil.mp hr).1] at h2
      simp at h2
    · intro hne
      refine ⟨min blen s.buffer.length, le_min hb (by omega), ?_, rfl, ?_, ?_⟩
      · rw [restOf, List.take_append_of_le_length (min_le_right _ _)]
      · rw [restOf, restOf, List.drop_append_of_le_length (min_le_right _ _)]
      · exact ⟨hwin, hcs, heof⟩
  · -- window exhausted: report end-of-stream and latch the eof flag
    have hbe : s.buffer = [] := List.length_eq_zero.mp (by omega)
    have hco : s.offset + s.size - s.currentOffset = 0 := by omega
    constructor
    · intro _; rfl
    · intro hne
      exact absurd (by simp [restOf, hbe, hco]) hne
  · -- fetch the next chunk
    have hbe : s.buffer = [] := List.length_eq_zero.mp (by omega)
    simp only [hfail, Bool.false_eq_true, if_false]
    set CO := s.currentOffset with hCO
    set E := (CO + s.chunkSize - 1) ⊓ (s.offset + s.size - 1) with hEdef
    set D := List.take (E + 1 - CO) (List.drop CO cl.obj) with hDdef
    set n := blen ⊓ D.length with hndef
    have hE1 : CO ≤ E := by rw [hEdef]; exact le_min (by omega) (by omega)
    have hE2 : E ≤ s.offset + s.size - 1 := by rw [hEdef]; exact min_le_right _ _
    have hDlen : D.length = E + 1 - CO := by
      rw [hDdef, List.length_take, List.length_drop]
      exact Nat.min_eq_left (by omega)
    have hn1 : 1 ≤ n := by
      rw [hndef]
      exact le_min hb (by rw [hDlen]; omega)
    have hnL : n ≤ E + 1 - CO := by
      rw [hndef, ← hDlen]
      exact min_le_right _ _
    have hrest : restOf cl s
        = List.take (s.offset + s.size - CO) (List.drop CO cl.obj) := by
      rw [restOf, hbe, List.nil_append]
    have hRlen : (restOf cl s).length = s.offset + s.size - CO := by
      rw [hrest, List.length_take, List.length_drop]
      exact Nat.min_eq_left (by omega)
    constructor
    · intro hr
      rw [hr] at hRlen
      simp at hRlen
      omega
    · intro hne
      refine ⟨n, hn1, ?_, trivial, ?_, ?_⟩
      · -- delivered bytes are the first n of the rest
        rw [hrest, hDdef, List.take_take, List.take_take]
        congr 1
        omega
      · -- leftover plus unfetched tail equals the rest minus n
        rw [restOf]
        dsimp only
        rw [hrest]
        rw [List.drop_take, List.drop_drop]
        rw [List.drop_take, List.drop_drop]
        set L := E + 1 - CO with hLdef
        rw [show s.offset + s.size - CO - n
            = (L - n) + (s.offset + s.size - (CO + L)) by omega]
        rw [List.take_add]
        rw [List.drop_drop]
        rw [show CO + n + (L - n) = CO + L by omega]
        rw [show E + 1 = CO + L by omega]
      · refine ⟨hwin, hcs, ?_⟩
        intro hq
        dsimp only at hq ⊢
        have := of_decide_eq_true hq
        omega

/-- Reading repeatedly with any fixed positive destination size drains the
remaining window exactly, ending on the end-of-stream marker. -/
theorem drain_exhausts (cl : GetClient) (blen : Nat)
    (hfail : ∀ a b, cl.failAt a b = false) (hb : 1 ≤ blen) :
    ∀ (fuel : Nat) (s : ChunkStreamer) (acc : List Byte),
      RInv cl s → (restOf cl s).length < fuel →
      drain cl fuel s blen acc = (acc ++ restOf cl s, some RErr.eofMark) := by
  intro fuel
  induction fuel with
  | zero => intro s acc _ h; omega
  | succ fuel ih =>
      intro s acc hinv hlen
      by_cases hr : restOf cl s = []
      · have h := (read_step cl s blen hinv hfail hb).1 hr
        obtain ⟨⟨s1, out, r⟩, hrd⟩ : ∃ res, ChunkStreamer.Read cl s blen = res := ⟨_, rfl⟩
        rw [hrd] at h
        dsimp only at h
        subst h
        unfold drain
        rw [hrd, hr]
        simp
      · have h := (read_step cl s blen hinv hfail hb).2 hr
        obtain ⟨n, hn1, hout, hnone, hrest, hinv1⟩ := h
        obtain ⟨⟨s1, out, r⟩, hrd⟩ : ∃ res, ChunkStreamer.Read cl s blen = res := ⟨_, rfl⟩
        rw [hrd] at hout hnone hrest hinv1
        dsimp only at hout hnone hrest hinv1
        subst hnone
        unfold drain
        rw [hrd]
        dsimp only
        have hfuel : (restOf cl s1).length < fuel := by
          rw [hrest, List.length_drop]
          have : 1 ≤ (restOf cl s).length := by
            rcases hq : restOf cl s with _ | _
            · exact absurd hq hr
            · simp
          omega
        rw [ih s1 (acc ++ out) hinv1 hfuel]
        rw [hrest, hout]
        rw [List.append_assoc, List.take_append_drop]

/-- C3: for every object, every chunk size c ≥ 1 and every destination
size b ≥ 1, repeatedly reading a fresh Range Reader over the whole object
until end-of-stream yields exactly the original byte sequence, independent
of c and b. -/
theorem c3_read_roundtrip (obj : List Byte) (c b : Nat) (hc : 1 ≤ c) (hb : 1 ≤ b) :
    drain (okGetClient obj) (obj.length + 1) (NewChunkStreamer 0 obj.length c) b []
      = (obj, some RErr.eofMark) := by
  have hfail : ∀ a b2, (okGetClient obj).failAt a b2 = false := fun _ _ => rfl
  have hinv : RInv (okGetClient obj) (NewChunkStreamer 0 obj.length c) := by
    refine ⟨by simp [okGetClient, NewChunkStreamer], hc, ?_⟩
    intro h
    simp [NewChunkStreamer] at h
  have hrest : restOf (okGetClient obj) (NewChunkStreamer 0 obj.length c) = obj := by
    simp [restOf, NewChunkStreamer, okGetClient]
  have h := drain_exhausts (okGetClient obj) b hfail hb (obj.length + 1)
      (NewChunkStreamer 0 obj.length c) [] hinv (by rw [hrest]; omega)
  rw [hrest] at h
  simpa using h

/-- Witness for C3 on a concrete object, chunk size and buffer size. -/
theorem c3_read_roundtrip_witness :
    drain (okGetClient [10, 20, 30, 40, 50]) 6 (NewChunkStreamer 0 5 2) 3 []
      = ([10, 20, 30, 40, 50], some RErr.eofMark) :=
  c3_read_roundtrip [10, 20, 30, 40, 50] 2 3 (by decide) (by decide)

/-! ## Claims C1 and C2: part numbering and content reassembly -/

theorem insertByPn_lt {α : Type} (pr q : Nat × α) (rest : List (Nat × α)) (h : pr.1 < q.1) :
    insertByPn pr (q :: rest) = pr :: q :: rest := by
  unfold insertByPn
  rw [if_pos h]

/-- Sorting by part number is the identity on a list whose part numbers are
already the consecutive range starting at `s`. -/
theorem sortByPn_id {α : Type} :
    ∀ (l : List (Nat × α)) (s : Nat),
      l.map Prod.fst = List.range' s l.length → sortByPn l = l := by
  intro l
  induction l with
  | nil => intro s _; rfl
  | cons pr rest ih =>
      intro s h
      simp only [List.map_cons, List.length_cons] at h
      rw [List.range'_succ] at h
      injection h with h1 h2
      unfold sortByPn
      rw [ih (s + 1) h2]
      cases rest with
      | nil => rfl
      | cons q rest2 =>
          have hq : pr.1 < q.1 := by
            simp only [List.map_cons, List.length_cons] at h2
            rw [List.range'_succ] at h2
            injection h2 with h3 _
            omega
          exact insertByPn_lt pr q rest2 hq

theorem upOks_up_true (pn : Nat) (b : List Byte) : upOks [Ev.up pn b true] = [(pn, b)] := rfl

theorem upOks_up_false (pn : Nat) (b : List Byte) : upOks [Ev.up pn b false] = [] := rfl

theorem upOks_complete (ps : List (Nat × String)) (ok : Bool) :
    upOks [Ev.complete ps ok] = [] := rfl

theorem upOks_abort (ok : Bool) : upOks [Ev.abort ok] = [] := rfl

/-- Effect of one `uploadPart` call on the invariant and the virtual
content, provided the client is well-behaved or the call succeeded. -/
theorem uploadPart_inv (c : S3ClientW) (w : S3Writer)
    (hge : GoodEtags c ∨ (S3Writer.uploadPart c w).2 = none)
    (hnc : ¬ HasComplete w) (hinv : WInv w) :
    WInv (S3Writer.uploadPart c w).1
    ∧ ¬ HasComplete (S3Writer.uploadPart c w).1
    ∧ joined (S3Writer.uploadPart c w).1 = joined w
    ∧ ((S3Writer.uploadPart c w).2 = none → (S3Writer.uploadPart c w).1.buffer = []) := by
  obtain ⟨hi1, hi2, hi3, hi4⟩ := hinv
  unfold S3Writer.uploadPart
  split_ifs with h1 h2
  · exact ⟨⟨hi1, hi2, hi3, hi4⟩, hnc, rfl, fun _ => List.length_eq_zero.mp h1⟩
  · exact ⟨⟨hi1, hi2, hi3, hi4⟩, hnc, rfl, fun h => by cases h⟩
  · cases hr : c.uploadPartRes w.partNumber w.buffer with
    | error m =>
        dsimp only
        refine ⟨⟨?_, hi2, hi3, ?_⟩, ?_, ?_, fun h => by cases h⟩
        · rw [upOks_append, upOks_up_false, List.append_nil]
          exact hi1
        · intro ps b hmem
          rcases List.mem_append.mp hmem with hm | hm
          · exact hi4 ps b hm
          · simp at hm
        · rintro ⟨ps, b, hmem⟩
          rcases List.mem_append.mp hmem with hm | hm
          · exact hnc ⟨ps, b, hm⟩
          · simp at hm
        · rw [joined, joined, upOks_append, upOks_up_false, List.append_nil]
    | ok etag =>
        dsimp only
        split_ifs with h3
        · exfalso
          rcases hge with hg | hok
          · exact (hg _ _ _ hr) h3
          · have hv : (S3Writer.uploadPart c w).2 = some (WErr.emptyETag w.partNumber) := by
              unfold S3Writer.uploadPart
              rw [if_neg h1, if_neg h2, hr]
              dsimp only
              rw [if_pos h3]
            rw [hv] at hok
            cases hok
        · dsimp only
          refine ⟨⟨?_, ?_, ?_, ?_⟩, ?_, ?_, fun _ => rfl⟩
          · rw [upOks_append, upOks_up_true, List.map_append, hi1]
            simp only [List.length_append, List.length_cons, List.length_nil,
              List.map_cons, List.map_nil]
            rw [List.range'_1_concat]
            rw [hi3]
            simp [Nat.add_comm]
          · rw [List.map_append, hi2]
            simp only [List.length_append, List.length_cons, List.length_nil,
              List.map_cons, List.map_nil]
            rw [List.range'_1_concat]
            rw [hi3]
            simp [Nat.add_comm]
          · simp only [List.length_append, List.length_cons, List.length_nil]
            omega
          · intro ps b hmem
            rcases List.mem_append.mp hmem with hm | hm
            · exact absurd ⟨ps, b, hm⟩ hnc
            · simp at hm
          · rintro ⟨ps, b, hmem⟩
            rcases List.mem_append.mp hmem with hm | hm
            · exact hnc ⟨ps, b, hm⟩
            · simp at hm
          · rw [joined, joined, upOks_append, upOks_up_true]
            simp [List.flatten_append]

/-- The write loop preserves the part-numbering invariant under any client
whose successful uploads carry non-empty ETags, whatever the outcome. -/
theorem writeLoop_inv (c : S3ClientW) (hg : GoodEtags c) :
    ∀ (fuel : Nat) (w : S3Writer) (p : List Byte) (total : Nat),
      WInv w → ¬ HasComplete w →
      WInv (writeLoop c fuel w p total).1
      ∧ ¬ HasComplete (writeLoop c fuel w p total).1 := by
  intro fuel
  induction fuel with
  | zero => intro w p total hinv hnc; exact ⟨hinv, hnc⟩
  | succ fuel ih =>
      intro w p total hinv hnc
      unfold writeLoop
      split_ifs with hp hfl
      · exact ⟨hinv, hnc⟩
      · have hup : ∃ res : S3Writer × Option WErr, S3Writer.uploadPart c w = res := ⟨_, rfl⟩
        obtain ⟨⟨w1, r⟩, hup⟩ := hup
        have h := uploadPart_inv c w (Or.inl hg) hnc hinv
        rw [hup] at h
        rw [hup]
        cases r with
        | some e => exact ⟨h.1, h.2.1⟩
        | none =>
            dsimp only
            split_ifs with hfl2
            · have hup2 : ∃ res : S3Writer × Option WErr,
                  S3Writer.uploadPart c
                    { w1 with buffer := w1.buffer ++ p.take (min p.length (w1.partSize - w1.buffer.length)) }
                    = res := ⟨_, rfl⟩
              obtain ⟨⟨w3, r2⟩, hup2⟩ := hup2
              have h2 := uploadPart_inv c
                  { w1 with buffer := w1.buffer ++ p.take (min p.length (w1.partSize - w1.buffer.length)) }
                  (Or.inl hg) h.2.1 h.1
              rw [hup2] at h2
              rw [hup2]
              cases r2 with
              | some e => exact ⟨h2.1, h2.2.1⟩
              | none => exact ih w3 _ _ h2.1 h2.2.1
            · exact ih _ _ _ h.1 h.2.1
      · dsimp only
        split_ifs with hfl2
        · have hup2 : ∃ res : S3Writer × Option WErr,
              S3Writer.uploadPart c
                { w with buffer := w.buffer ++ p.take (min p.length (w.partSize - w.buffer.length)) }
                = res := ⟨_, rfl⟩
          obtain ⟨⟨w3, r2⟩, hup2⟩ := hup2
          have h2 := uploadPart_inv c
              { w with buffer := w.buffer ++ p.take (min p.length (w.partSize - w.buffer.length)) }
              (Or.inl hg) hnc hinv
          rw [hup2] at h2
          rw [hup2]
          cases r2 with
          | some e => exact ⟨h2.1, h2.2.1⟩
          | none => exact ih w3 _ _ h2.1 h2.2.1
        · exact ih _ _ _ hinv hnc

/-- A successful pass of the write loop accepts all of `p`, extends the
virtual content by exactly `p`, reports `p.length` bytes, leaves the error
field alone and preserves the invariant. Needs `partSize ≥ 1` and fuel at
least `p.length` (one unit per byte at worst). -/
theorem writeLoop_ok (c : S3ClientW) :
    ∀ (fuel : Nat) (w : S3Writer) (p : List Byte) (total : Nat),
      1 ≤ w.partSize → p.length ≤ fuel → WInv w → ¬ HasComplete w →
      (writeLoop c fuel w p total).2.2 = none →
      joined (writeLoop c fuel w p total).1 = joined w ++ p
      ∧ (writeLoop c fuel w p total).2.1 = total + p.length
      ∧ (writeLoop c fuel w p total).1.err = w.err
      ∧ WInv (writeLoop c fuel w p total).1
      ∧ ¬ HasComplete (writeLoop c fuel w p total).1 := by
  intro fuel
  induction fuel with
  | zero =>
      intro w p total hps hfuel hinv hnc hok
      have hpe : p = [] := List.length_eq_zero.mp (by omega)
      subst hpe
      unfold writeLoop
      exact ⟨by simp, by simp, rfl, hinv, hnc⟩
  | succ fuel ih =>
      intro w p total hps hfuel hinv hnc hok
      unfold writeLoop at hok ⊢
      split_ifs at hok ⊢ with hp hfl
      · subst hp
        exact ⟨by simp, by simp, rfl, hinv, hnc⟩
      · -- initial flush of the full buffer
        have hup : ∃ res : S3Writer × Option WErr, S3Writer.uploadPart c w = res := ⟨_, rfl⟩
        obtain ⟨⟨w1, r⟩, hup⟩ := hup
        rw [hup] at hok ⊢
        cases r with
        | some e => dsimp only at hok; cases hok
        | none =>
            dsimp only at hok ⊢
            have h := uploadPart_inv c w (Or.inr (by rw [hup])) hnc hinv
            rw [hup] at h
            dsimp only at h
            have hbuf : w1.buffer = [] := h.2.2.2 rfl
            have hb := uploadPart_basic c w
            rw [hup] at hb
            dsimp only at hb
            have hps1 : 1 ≤ w1.partSize := by rw [hb.2.1]; exact hps
            have hjw : ((upOks w1.trace).map Prod.snd).flatten = joined w := by
              rw [← h.2.2.1, joined, hbuf, List.append_nil]
            rw [hbuf] at hok ⊢
            simp only [List.length_nil, Nat.sub_zero, List.nil_append] at hok ⊢
            have htoW : 1 ≤ min p.length w1.partSize :=
              le_min (List.length_pos.mpr hp) hps1
            have htle : min p.length w1.partSize ≤ p.length := min_le_left _ _
            have hj2 : joined { w1 with buffer := p.take (min p.length w1.partSize) }
                = joined w ++ p.take (min p.length w1.partSize) := by
              rw [joined]
              dsimp only
              rw [hjw]
            have hWb : WInv { w1 with buffer := p.take (min p.length w1.partSize) } := h.1
            have hCb : ¬ HasComplete { w1 with buffer := p.take (min p.length w1.partSize) } :=
              h.2.1
            split_ifs at hok ⊢ with hfl2
            · have hup2 : ∃ res : S3Writer × Option WErr,
                  S3Writer.uploadPart c { w1 with buffer := p.take (min p.length w1.partSize) }
                    = res := ⟨_, rfl⟩
              obtain ⟨⟨w3, r2⟩, hup2⟩ := hup2
              rw [hup2] at hok ⊢
              cases r2 with
              | some e => dsimp only at hok; cases hok
              | none =>
                  dsimp only at hok ⊢
                  have h2 := uploadPart_inv c
                      { w1 with buffer := p.take (min p.length w1.partSize) }
                      (Or.inr (by rw [hup2])) hCb hWb
                  rw [hup2] at h2
                  dsimp only at h2
                  have hb2 := uploadPart_basic c
                      { w1 with buffer := p.take (min p.length w1.partSize) }
                  rw [hup2] at hb2
                  dsimp only at hb2
                  have hrec := ih w3 (p.drop (min p.length w1.partSize))
                      (total + min p.length w1.partSize)
                      (by rw [hb2.2.1]; exact hps1)
                      (by rw [List.length_drop]; omega)
                      h2.1 h2.2.1 hok
                  refine ⟨?_, ?_, ?_, hrec.2.2.2.1, hrec.2.2.2.2⟩
                  · rw [hrec.1, h2.2.2.1, hj2, List.append_assoc, List.take_append_drop]
                  · rw [hrec.2.1, List.length_drop]
                    omega
                  · rw [hrec.2.2.1, hb2.2.2.2.1]
                    exact hb.2.2.2.1
            · have hrec := ih { w1 with buffer := p.take (min p.length w1.partSize) }
                  (p.drop (min p.length w1.partSize))
                  (total + min p.length w1.partSize)
                  hps1
                  (by rw [List.length_drop]; omega)
                  hWb hCb hok
              refine ⟨?_, ?_, ?_, hrec.2.2.2.1, hrec.2.2.2.2⟩
              · rw [hrec.1, hj2, List.append_assoc, List.take_append_drop]
              · rw [hrec.2.1, List.length_drop]
                omega
              · rw [hrec.2.2.1]
                exact hb.2.2.2.1
      · -- no initial flush: the buffer still has room
        dsimp only at hok ⊢
        have hroom : 1 ≤ w.partSize - w.buffer.length := by omega
        set tW := min p.length (w.partSize - w.buffer.length) with htWdef
        have htoW : 1 ≤ tW := by
          rw [htWdef]
          exact le_min (List.length_pos.mpr hp) hroom
        have htle : tW ≤ p.length := by rw [htWdef]; exact min_le_left _ _
        have hj2 : joined { w with buffer := w.buffer ++ p.take tW }
            = joined w ++ p.take tW := by
          rw [joined, joined]
          dsimp only
          rw [List.append_assoc]
        have hWb : WInv { w with buffer := w.buffer ++ p.take tW } := hinv
        have hCb : ¬ HasComplete { w with buffer := w.buffer ++ p.take tW } := hnc
        split_ifs at hok ⊢ with hfl2
        · have hup2 : ∃ res : S3Writer × Option WErr,
              S3Writer.uploadPart c { w with buffer := w.buffer ++ p.take tW } = res := ⟨_, rfl⟩
          obtain ⟨⟨w3, r2⟩, hup2⟩ := hup2
          rw [hup2] at hok ⊢
          cases r2 with
          | some e => dsimp only at hok; cases hok
          | none =>
              dsimp only at hok ⊢
              have h2 := uploadPart_inv c { w with buffer := w.buffer ++ p.take tW }
                  (Or.inr (by rw [hup2])) hCb hWb
              rw [hup2] at h2
              dsimp only at h2
              have hb2 := uploadPart_basic c { w with buffer := w.buffer ++ p.take tW }
              rw [hup2] at hb2
              dsimp only at hb2
              have hrec := ih w3 (p.drop tW) (total + tW)
                  (by rw [hb2.2.1]; exact hps)
                  (by rw [List.length_drop]; omega)
                  h2.1 h2.2.1 hok
              refine ⟨?_, ?_, ?_, hrec.2.2.2.1, hrec.2.2.2.2⟩
              · rw [hrec.1, h2.2.2.1, hj2, List.append_assoc, List.take_append_drop]
              · rw [hrec.2.1, List.length_drop]
                omega
              · rw [hrec.2.2.1]
                exact hb2.2.2.2.1
        · have hrec := ih { w with buffer := w.buffer ++ p.take tW } (p.drop tW) (total + tW)
              hps
              (by rw [List.length_drop]; omega)
              hWb hCb hok
          refine ⟨?_, ?_, ?_, hrec.2.2.2.1, hrec.2.2.2.2⟩
          · rw [hrec.1, hj2, List.append_assoc, List.take_append_drop]
          · rw [hrec.2.1, List.length_drop]
            omega
          · exact hrec.2.2.1
/-! ## Claims C1 and C2: invariant preservation across public calls -/

/-- Setting the closed flag preserves the part-numbering invariant. -/
theorem WInv_closed (w : S3Writer) (h : WInv w) : WInv { w with closed := true } := by
  obtain ⟨h1, h2, h3, h4⟩ := h
  exact ⟨h1, h2, h3, fun ps b hm => ⟨(h4 ps b hm).1, rfl⟩⟩

/-- Recording an error does not touch the fields the invariant speaks about. -/
theorem WInv_err (w : S3Writer) (e : Option WErr) (h : WInv w) :
    WInv { w with err := e } := by
  obtain ⟨h1, h2, h3, h4⟩ := h
  exact ⟨h1, h2, h3, h4⟩

/-- `abortMultipartUpload` preserves the invariant and the virtual content:
it only ever appends an abort event to the trace. -/
theorem abortMU_inv (c : S3ClientW) (w : S3Writer) (hinv : WInv w) :
    WInv (S3Writer.abortMultipartUpload c w).1
    ∧ joined (S3Writer.abortMultipartUpload c w).1 = joined w := by
  obtain ⟨hi1, hi2, hi3, hi4⟩ := hinv
  unfold S3Writer.abortMultipartUpload
  cases hu : w.uploadID with
  | none => exact ⟨⟨hi1, hi2, hi3, hi4⟩, rfl⟩
  | some uid =>
      dsimp only
      cases har : c.abortRes with
      | error m =>
          dsimp only
          refine ⟨⟨?_, hi2, hi3, ?_⟩, ?_⟩
          · rw [upOks_append, upOks_abort, List.append_nil]
            exact hi1
          · intro ps b hm
            rcases List.mem_append.mp hm with hm2 | hm2
            · exact hi4 ps b hm2
            · simp at hm2
          · rw [joined, joined, upOks_append, upOks_abort, List.append_nil]
      | ok u =>
          dsimp only
          refine ⟨⟨?_, hi2, hi3, ?_⟩, ?_⟩
          · rw [upOks_append, upOks_abort, List.append_nil]
            exact hi1
          · intro ps b hm
            rcases List.mem_append.mp hm with hm2 | hm2
            · exact hi4 ps b hm2
            · simp at hm2
          · rw [joined, joined, upOks_append, upOks_abort, List.append_nil]

/-- On a closed writer that satisfies the invariant and has not completed
yet, `completeMultipartUpload` preserves the invariant, the recorded parts
(sorting is the identity there) and the virtual content; any completion
event it records submits exactly the recorded parts. -/
theorem completeMU_inv (c : S3ClientW) (w : S3Writer)
    (hinv : WInv w) (hnc : ¬ HasComplete w) (hcl : w.closed = true) :
    WInv (S3Writer.completeMultipartUpload c w).1
    ∧ ¬ HasComplete w
    ∧ joined (S3Writer.completeMultipartUpload c w).1 = joined w := by
  obtain ⟨hi1, hi2, hi3, hi4⟩ := hinv
  have hs : sortByPn w.parts = w.parts := sortByPn_id w.parts 1 hi2
  unfold S3Writer.completeMultipartUpload
  cases hu : w.uploadID with
  | none => exact ⟨⟨hi1, hi2, hi3, hi4⟩, hnc, rfl⟩
  | some uid =>
      dsimp only
      split_ifs with h1
      · exact ⟨⟨hi1, hi2, hi3, hi4⟩, hnc, rfl⟩
      · rw [hs]
        cases hfi : w.parts.findIdx? (fun pr => pr.2 == "") with
        | some i =>
            dsimp only
            exact ⟨⟨hi1, hi2, hi3, hi4⟩, hnc, rfl⟩
        | none =>
            dsimp only
            cases hcr : c.completeRes w.parts with
            | error m =>
                dsimp only
                refine ⟨⟨?_, hi2, hi3, ?_⟩, hnc, ?_⟩
                · rw [upOks_append, upOks_complete, List.append_nil]
                  exact hi1
                · intro ps b hm
                  rcases List.mem_append.mp hm with hm2 | hm2
                  · exact absurd ⟨ps, b, hm2⟩ hnc
                  · simp only [List.mem_singleton] at hm2
                    injection hm2 with hps2 hb2
                    exact ⟨hps2, hcl⟩
                · rw [joined, joined, upOks_append, upOks_complete, List.append_nil]
            | ok u =>
                dsimp only
                refine ⟨⟨?_, hi2, hi3, ?_⟩, hnc, ?_⟩
                · rw [upOks_append, upOks_complete, List.append_nil]
                  exact hi1
                · intro ps b hm
                  rcases List.mem_append.mp hm with hm2 | hm2
                  · exact absurd ⟨ps, b, hm2⟩ hnc
                  · simp only [List.mem_singleton] at hm2
                    injection hm2 with hps2 hb2
                    exact ⟨hps2, hcl⟩
                · rw [joined, joined, upOks_append, upOks_complete, List.append_nil]

/-- `Write` preserves the part-numbering invariant under a well-behaved
client, whatever the outcome. -/
theorem Write_inv (c : S3ClientW) (w : S3Writer) (p : List Byte) (hg : GoodEtags c)
    (hinv : WInv w) : WInv (S3Writer.Write c w p).1 := by
  unfold S3Writer.Write
  split_ifs with h1 h2
  · exact hinv
  · exact hinv
  · cases he : w.err with
    | some e => exact hinv
    | none =>
        obtain ⟨hi1, hi2, hi3, hi4⟩ := hinv
        have hnc : ¬ HasComplete w := by
          rintro ⟨ps, b, hm⟩
          exact h2 (hi4 ps b hm).2
        exact (writeLoop_inv c hg p.length w p 0 ⟨hi1, hi2, hi3, hi4⟩ hnc).1

/-- `Close` preserves the part-numbering invariant under a well-behaved
client, whatever the outcome. -/
theorem Close_inv (c : S3ClientW) (w : S3Writer) (hg : GoodEtags c)
    (hinv : WInv w) : WInv (S3Writer.Close c w).1 := by
  obtain ⟨hi1, hi2, hi3, hi4⟩ := hinv
  have hWc : WInv { w with closed := true } :=
    WInv_closed w ⟨hi1, hi2, hi3, hi4⟩
  unfold S3Writer.Close
  split_ifs with h1 h2 h3 hfl
  · exact ⟨hi1, hi2, hi3, hi4⟩
  · exact (abortMU_inv c { w with closed := true } hWc).1
  · exact ⟨hi1, hi2, hi3, hi4⟩
  · have hnc : ¬ HasComplete w := by
      rintro ⟨ps, b, hm⟩
      exact h3 (hi4 ps b hm).2
    have hup : ∃ res : S3Writer × Option WErr,
        S3Writer.uploadPart c { w with closed := true } = res := ⟨_, rfl⟩
    obtain ⟨⟨w2, r⟩, hup⟩ := hup
    have hU := uploadPart_inv c { w with closed := true } (Or.inl hg) hnc hWc
    rw [hup] at hU
    dsimp only at hU
    have hUb := uploadPart_basic c { w with closed := true }
    rw [hup] at hUb
    dsimp only at hUb
    rw [hup]
    cases r with
    | some e =>
        dsimp only
        exact (abortMU_inv c { w2 with err := some e } (WInv_err w2 (some e) hU.1)).1
    | none =>
        dsimp only
        have hcl2 : w2.closed = true := hUb.2.2.1
        have hcm : ∃ res : S3Writer × Option WErr,
            S3Writer.completeMultipartUpload c w2 = res := ⟨_, rfl⟩
        obtain ⟨⟨w3, r2⟩, hcm⟩ := hcm
        have hC := completeMU_inv c w2 hU.1 hU.2.1 hcl2
        rw [hcm] at hC
        dsimp only at hC
        rw [hcm]
        cases r2 with
        | some e =>
            dsimp only
            exact (abortMU_inv c { w3 with err := some e } (WInv_err w3 (some e) hC.1)).1
        | none => exact hC.1
  · have hnc : ¬ HasComplete w := by
      rintro ⟨ps, b, hm⟩
      exact h3 (hi4 ps b hm).2
    dsimp only
    have hcm : ∃ res : S3Writer × Option WErr,
        S3Writer.completeMultipartUpload c { w with closed := true } = res := ⟨_, rfl⟩
    obtain ⟨⟨w3, r2⟩, hcm⟩ := hcm
    have hC := completeMU_inv c { w with closed := true } hWc hnc rfl
    rw [hcm] at hC
    dsimp only at hC
    rw [hcm]
    cases r2 with
    | some e =>
        dsimp only
        exact (abortMU_inv c { w3 with err := some e } (WInv_err w3 (some e) hC.1)).1
    | none => exact hC.1

/-- `Abort` preserves the part-numbering invariant. -/
theorem Abort_inv (c : S3ClientW) (w : S3Writer) (hinv : WInv w) :
    WInv (S3Writer.Abort c w).1 := by
  unfold S3Writer.Abort
  split_ifs with h1
  · exact (abortMU_inv c w hinv).1
  · exact (abortMU_inv c { w with closed := true } (WInv_closed w hinv)).1

/-- The invariant holds after any sequence of public calls under a
well-behaved client. -/
theorem runOps_inv (c : S3ClientW) (hg : GoodEtags c) :
    ∀ (ops : List WOp) (w : S3Writer), WInv w → WInv (runOps c w ops) := by
  intro ops
  induction ops with
  | nil => intro w h; exact h
  | cons op ops ih =>
      intro w h
      unfold runOps
      cases op with
      | write p => exact ih _ (Write_inv c w p hg h)
      | close => exact ih _ (Close_inv c w hg h)
      | abort => exact ih _ (Abort_inv c w h)

/-- A successful `Write` appends exactly `p` to the virtual content and
keeps the part size, the closed flag and the invariant. -/
theorem Write_ok (c : S3ClientW) (w w1 : S3Writer) (p : List Byte) (n : Nat)
    (hps : 1 ≤ w.partSize) (hinv : WInv w) (hnc : ¬ HasComplete w)
    (h : S3Writer.Write c w p = (w1, n, none)) :
    joined w1 = joined w ++ p
    ∧ w1.partSize = w.partSize
    ∧ w1.closed = w.closed
    ∧ WInv w1
    ∧ ¬ HasComplete w1 := by
  unfold S3Writer.Write at h
  split_ifs at h with h1 h2
  · simp only [Prod.mk.injEq] at h
    exact absurd h.2.2 (by simp)
  · simp only [Prod.mk.injEq] at h
    exact absurd h.2.2 (by simp)
  · cases he : w.err with
    | some e =>
        rw [he] at h
        dsimp only at h
        simp only [Prod.mk.injEq] at h
        exact absurd h.2.2 (by simp)
    | none =>
        rw [he] at h
        dsimp only at h
        have hok : (writeLoop c p.length w p 0).2.2 = none := by rw [h]
        have hL := writeLoop_ok c p.length w p 0 hps le_rfl hinv hnc hok
        have hB := writeLoop_basic c p.length w p 0
        rw [h] at hL hB
        dsimp only at hL hB
        exact ⟨hL.1, hB.2.1, hB.2.2.1, hL.2.2.2.1, hL.2.2.2.2⟩

/-- Feeding chunks through successive successful `Write` calls appends
their concatenation to the virtual content. -/
theorem writeAll_ok (c : S3ClientW) :
    ∀ (chunks : List (List Byte)) (w w1 : S3Writer),
      1 ≤ w.partSize → WInv w → ¬ HasComplete w →
      writeAll c w chunks = (w1, true) →
      joined w1 = joined w ++ chunks.flatten
      ∧ w1.partSize = w.partSize
      ∧ w1.closed = w.closed
      ∧ WInv w1
      ∧ ¬ HasComplete w1 := by
  intro chunks
  induction chunks with
  | nil =>
      intro w w1 hps hinv hnc h
      unfold writeAll at h
      simp only [Prod.mk.injEq] at h
      rw [← h.1]
      exact ⟨by simp, rfl, rfl, hinv, hnc⟩
  | cons p ps ih =>
      intro w w1 hps hinv hnc h
      unfold writeAll at h
      have hW : ∃ res : S3Writer × Nat × Option WErr, S3Writer.Write c w p = res := ⟨_, rfl⟩
      obtain ⟨⟨wa, n, r⟩, hW⟩ := hW
      rw [hW] at h
      cases r with
      | some e =>
          dsimp only at h
          simp only [Prod.mk.injEq] at h
          exact absurd h.2 (by simp)
      | none =>
          dsimp only at h
          have hA := Write_ok c w wa p n hps hinv hnc hW
          have hrec := ih wa w1 (by rw [hA.2.1]; exact hps) hA.2.2.2.1 hA.2.2.2.2 h
          refine ⟨?_, hrec.2.1.trans hA.2.1, hrec.2.2.1.trans hA.2.2.1,
            hrec.2.2.2.1, hrec.2.2.2.2⟩
          rw [hrec.1, hA.1, List.flatten_cons, List.append_assoc]

/-- A successful `Close` on an open writer flushes the buffer and
completes: the virtual content is unchanged, the buffer ends empty and the
invariant holds in the final state. -/
theorem Close_ok (c : S3ClientW) (w f : S3Writer)
    (hinv : WInv w) (hnc : ¬ HasComplete w) (hncl : w.closed = false)
    (h : S3Writer.Close c w = (f, none)) :
    joined f = joined w ∧ f.buffer = [] ∧ WInv f := by
  obtain ⟨hi1, hi2, hi3, hi4⟩ := hinv
  have hWc : WInv { w with closed := true } :=
    WInv_closed w ⟨hi1, hi2, hi3, hi4⟩
  unfold S3Writer.Close at h
  split_ifs at h with h1 h2 h3 hfl
  · simp only [Prod.mk.injEq] at h
    exact absurd h.2 (by simp)
  · simp only [Prod.mk.injEq] at h
    exact absurd h.2 (by simp)
  · rw [hncl] at h3
    exact absurd h3 (by simp)
  · have hup : ∃ res : S3Writer × Option WErr,
        S3Writer.uploadPart c { w with closed := true } = res := ⟨_, rfl⟩
    obtain ⟨⟨w2, r⟩, hup⟩ := hup
    rw [hup] at h
    cases r with
    | some e =>
        dsimp only at h
        simp only [Prod.mk.injEq] at h
        exact absurd h.2 (by simp)
    | none =>
        dsimp only at h
        have hU := uploadPart_inv c { w with closed := true } (Or.inr (by rw [hup])) hnc hWc
        rw [hup] at hU
        dsimp only at hU
        have hUb := uploadPart_basic c { w with closed := true }
        rw [hup] at hUb
        dsimp only at hUb
        have hbuf2 : w2.buffer = [] := hU.2.2.2 rfl
        have hcl2 : w2.closed = true := hUb.2.2.1
        have hcm : ∃ res : S3Writer × Option WErr,
            S3Writer.completeMultipartUpload c w2 = res := ⟨_, rfl⟩
        obtain ⟨⟨w3, r2⟩, hcm⟩ := hcm
        rw [hcm] at h
        cases r2 with
        | some e =>
            dsimp only at h
            simp only [Prod.mk.injEq] at h
            exact absurd h.2 (by simp)
        | none =>
            dsimp only at h
            simp only [Prod.mk.injEq] at h
            have hC := completeMU_inv c w2 hU.1 hU.2.1 hcl2
            rw [hcm] at hC
            dsimp only at hC
            have hCb := completeMU_basic c w2
            rw [hcm] at hCb
            dsimp only at hCb
            rw [← h.1]
            refine ⟨?_, ?_, hC.1⟩
            · rw [hC.2.2]
              exact hU.2.2.1
            · rw [hCb.2.2.2.2.1]
              exact hbuf2
  · have hbufw : w.buffer = [] := List.length_eq_zero.mp (by omega)
    dsimp only at h
    have hcm : ∃ res : S3Writer × Option WErr,
        S3Writer.completeMultipartUpload c { w with closed := true } = res := ⟨_, rfl⟩
    obtain ⟨⟨w3, r2⟩, hcm⟩ := hcm
    rw [hcm] at h
    cases r2 with
    | some e =>
        dsimp only at h
        simp only [Prod.mk.injEq] at h
        exact absurd h.2 (by simp)
    | none =>
        dsimp only at h
        simp only [Prod.mk.injEq] at h
        have hC := completeMU_inv c { w with closed := true } hWc hnc rfl
        rw [hcm] at hC
        dsimp only at hC
        have hCb := completeMU_basic c { w with closed := true }
        rw [hcm] at hCb
        dsimp only at hCb
        rw [← h.1]
        refine ⟨?_, ?_, hC.1⟩
        · exact hC.2.2
        · rw [hCb.2.2.2.2.1]
          exact hbufw

/-- C1: along every sequence of public calls on a fresh writer, under any
client whose successful uploads return non-empty ETags, the part numbers of
the successful uploadPart calls are exactly 1, 2, ..., k in order; the
completed-parts list records exactly those numbers in the same order (so
each upload call's number equals the number recorded for that part); and
any completion call submitted a list carrying exactly the uploaded part
numbers. -/
theorem c1_part_numbering (c : S3ClientW) (psz : Nat) (uid : String) (ops : List WOp)
    (hg : GoodEtags c) :
    (upOks (runOps c (initWriter psz uid) ops).trace).map Prod.fst
        = List.range' 1 (runOps c (initWriter psz uid) ops).parts.length
    ∧ (runOps c (initWriter psz uid) ops).parts.map Prod.fst
        = List.range' 1 (runOps c (initWriter psz uid) ops).parts.length
    ∧ (∀ ps b, Ev.complete ps b ∈ (runOps c (initWriter psz uid) ops).trace →
        ps.map Prod.fst = (upOks (runOps c (initWriter psz uid) ops).trace).map Prod.fst) := by
  have h0 : WInv (initWriter psz uid) :=
    ⟨rfl, rfl, rfl, fun ps b hm => absurd hm (List.not_mem_nil _)⟩
  obtain ⟨h1, h2, h3, h4⟩ := runOps_inv c hg ops (initWriter psz uid) h0
  refine ⟨h1, h2, fun ps b hm => ?_⟩
  rw [(h4 ps b hm).1, h2, h1]

/-- Witness for C1 at a concrete client and call sequence. -/
theorem c1_part_numbering_witness :
    GoodEtags okClientW
    ∧ ((upOks (runOps okClientW (initWriter 5242880 "uid") [WOp.write [7], WOp.close]).trace).map Prod.fst
          = List.range' 1 (runOps okClientW (initWriter 5242880 "uid") [WOp.write [7], WOp.close]).parts.length
        ∧ (runOps okClientW (initWriter 5242880 "uid") [WOp.write [7], WOp.close]).parts.map Prod.fst
          = List.range' 1 (runOps okClientW (initWriter 5242880 "uid") [WOp.write [7], WOp.close]).parts.length
        ∧ (∀ ps b, Ev.complete ps b ∈ (runOps okClientW (initWriter 5242880 "uid") [WOp.write [7], WOp.close]).trace →
            ps.map Prod.fst = (upOks (runOps okClientW (initWriter 5242880 "uid") [WOp.write [7], WOp.close]).trace).map Prod.fst)) := by
  have hg : GoodEtags okClientW := by
    intro pn body etag h
    injection h with h2
    rw [← h2]
    decide
  exact ⟨hg, c1_part_numbering okClientW 5242880 "uid" [WOp.write [7], WOp.close] hg⟩

/-- C2: for any part size accepted by `NewS3Writer` (at least 5 MiB), any
split of the input across `Write` calls that all succeed, followed by a
successful `Close`, the bodies passed to the backing store's uploadPart
calls, concatenated in ascending part-number order, equal the original
input exactly. -/
theorem c2_write_roundtrip (c : S3ClientW) (psz : Nat) (w0 w1 f : S3Writer)
    (chunks : List (List Byte))
    (hnew : NewS3Writer c psz = Except.ok w0)
    (hw : writeAll c w0 chunks = (w1, true))
    (hcl : S3Writer.Close c w1 = (f, none)) :
    ((ascUploads f).map Prod.snd).flatten = chunks.flatten := by
  unfold NewS3Writer at hnew
  split_ifs at hnew with hlt
  cases hcr : c.createRes with
    | error m =>
        rw [hcr] at hnew
        exact Except.noConfusion hnew
    | ok uid =>
        rw [hcr] at hnew
        dsimp only at hnew
        injection hnew with hw0
        have hps0 : 1 ≤ w0.partSize := by
          rw [← hw0]
          show 1 ≤ psz
          omega
        have hinv0 : WInv w0 := by
          rw [← hw0]
          exact ⟨rfl, rfl, rfl, fun ps b hm => absurd hm (List.not_mem_nil _)⟩
        have hnc0 : ¬ HasComplete w0 := by
          rw [← hw0]
          rintro ⟨ps, b, hm⟩
          exact absurd hm (List.not_mem_nil _)
        have hA := writeAll_ok c chunks w0 w1 hps0 hinv0 hnc0 hw
        have hncl1 : w1.closed = false := by
          rw [hA.2.2.1, ← hw0]
          rfl
        have hC := Close_ok c w1 f hA.2.2.2.1 hA.2.2.2.2 hncl1 hcl
        have hjw0 : joined w0 = [] := by
          rw [← hw0]
          rfl
        have hjf : joined f = chunks.flatten := by
          rw [hC.1, hA.1, hjw0, List.nil_append]
        obtain ⟨hf1, hf2, hf3, hf4⟩ := hC.2.2
        have hlen : (upOks f.trace).length = f.parts.length := by
          have hh := congrArg List.length hf1
          simpa using hh
        have hsort : sortByPn (upOks f.trace) = upOks f.trace :=
          sortByPn_id (upOks f.trace) 1 (by rw [hf1, hlen])
        have hjoin : joined f = ((upOks f.trace).map Prod.snd).flatten := by
          rw [joined, hC.2.1, List.append_nil]
        rw [ascUploads, hsort, ← hjoin, hjf]

/-- Witness for C2: two one-byte writes at the minimum part size, closed
successfully, reproduce the input. -/
theorem c2_write_roundtrip_witness :
    NewS3Writer okClientW 5242880 = Except.ok (initWriter 5242880 "uid")
    ∧ writeAll okClientW (initWriter 5242880 "uid") [[7], [9]]
        = ((writeAll okClientW (initWriter 5242880 "uid") [[7], [9]]).1, true)
    ∧ S3Writer.Close okClientW (writeAll okClientW (initWriter 5242880 "uid") [[7], [9]]).1
        = ((S3Writer.Close okClientW (writeAll okClientW (initWriter 5242880 "uid") [[7], [9]]).1).1, none)
    ∧ ((ascUploads (S3Writer.Close okClientW (writeAll okClientW (initWriter 5242880 "uid") [[7], [9]]).1).1).map Prod.snd).flatten
        = [7, 9] :=
  ⟨rfl, rfl, rfl,
    c2_write_roundtrip okClientW 5242880 (initWriter 5242880 "uid") _ _ [[7], [9]]
      rfl rfl rfl⟩

end S3Streamer
